import Mathlib

/-!
Verification of the libtelnet 0.9 codec (libtelnet.c / libtelnet.h).

This file gives a shallow embedding of the library as compiled without
HAVE_ZLIB (so the COMPRESS2 / zlib bridge is absent: `_send` and
`telnet_recv` reduce to their plain branches, and every `return` in
`_subnegotiate` is `return 0`, making the compression-reentry branch of
`_process` dead code) and with HAVE_ALLOCA (the ZMP and type-and-data
subnegotiation parsers are compiled in; `alloca` never returns NULL, so
those error checks are dead).

Bytes are modelled as `Nat` (all wire bytes are 0..255; the definitions
are total on `Nat`).  The event handler is modelled by returning the
list of events each operation emits, in emission order.  `malloc`
failure is modelled by an allocation oracle `allocOk` carried in the
state: each `realloc` consumes one entry ([] means every allocation
succeeds).
-/

set_option linter.unusedVariables false

namespace Libtelnet

/-! ## Constants from libtelnet.h -/

def TELNET_IAC : Nat := 255
def TELNET_DONT : Nat := 254
def TELNET_DO : Nat := 253
def TELNET_WONT : Nat := 252
def TELNET_WILL : Nat := 251
def TELNET_SB : Nat := 250
def TELNET_SE : Nat := 240

def TELNET_TELOPT_TTYPE : Nat := 24
def TELNET_TELOPT_ENVIRON : Nat := 36
def TELNET_TELOPT_NEW_ENVIRON : Nat := 39
def TELNET_TELOPT_MSSP : Nat := 70
def TELNET_TELOPT_ZMP : Nat := 93

def TELNET_FLAG_PROXY : Nat := 1

/-- RFC1143 state names (libtelnet.c `Q_NO` .. `Q_WANTYES_OP`). -/
def Q_NO : Nat := 0
def Q_YES : Nat := 1
def Q_WANTNO : Nat := 2
def Q_WANTYES : Nat := 3
def Q_WANTNO_OP : Nat := 4
def Q_WANTYES_OP : Nat := 5

/-- `telnet_state_t`: the decoder states (`tdo` models TELNET_STATE_DO,
`do` being a Lean keyword). -/
inductive telnet_state_t where
  | data | iac | will | wont | tdo | dont | sb | sbData | sbDataIac
  deriving Repr, DecidableEq

/-- `telnet_error_t`: error codes. -/
inductive telnet_error_t where
  | eok | ebadval | enomem | eoverflow | eprotocol | ecompress
  deriving Repr, DecidableEq

/-- `telnet_event_t`: an event delivered to the caller's handler.
`evData`/`evSend` carry the payload bytes; `evIac` is TELNET_EV_IAC
(a COMMAND event) carrying the command byte; the negotiation events
carry the option; `evSubnegotiation` carries the option, the raw buffer
and the decoded argument list (empty when the parser passes argv = 0 /
argc = 0); `evWarning`/`evError` carry the error code of the `_error`
call that produced them (the formatted message text is not modelled). -/
inductive telnet_event_t where
  | evData (bytes : List Nat)
  | evSend (bytes : List Nat)
  | evIac (cmd : Nat)
  | evWill (telopt : Nat)
  | evWont (telopt : Nat)
  | evDo (telopt : Nat)
  | evDont (telopt : Nat)
  | evSubnegotiation (telopt : Nat) (buffer : List Nat) (argv : List (List Nat))
  | evWarning (err : telnet_error_t)
  | evError (err : telnet_error_t)
  deriving Repr, DecidableEq

/-- `telnet_telopt_t`: one row of the caller-supplied option-support
table.  The C list is terminated by a `telopt = -1` sentinel; here the
table is a Lean list and needs no sentinel. -/
structure telnet_telopt_t where
  telopt : Nat
  us : Nat
  him : Nat
  deriving Repr, DecidableEq

/-- `telnet_rfc1143_t`: per-option negotiation state (us/him are the
Q_* values, stored in 4-bit fields in C). -/
structure telnet_rfc1143_t where
  telopt : Nat
  us : Nat
  him : Nat
  deriving Repr, DecidableEq

/-- `telnet_t`: the state tracker.  `buffer` holds the live prefix of
the C subnegotiation buffer (C's `buffer[0 .. buffer_pos)`), so
`buffer.length` is C's `buffer_pos` and `buffer_size` the capacity.
`q_size` is C's `unsigned char q_size` (kept mod 256 where C wraps).
`allocOk` is the allocation oracle (not a C field): each `realloc`
consumes the head, and an empty list means success. -/
structure telnet_t where
  telopts : Option (List telnet_telopt_t)
  flags : Nat
  q : List telnet_rfc1143_t
  q_size : Nat
  buffer : List Nat
  buffer_size : Nat
  state : telnet_state_t
  sb_telopt : Nat
  allocOk : List Bool
  deriving Repr, DecidableEq

/-- `telnet_init`: zeroed state with the caller's table and flags
(`heap` is the allocation oracle for this instance's lifetime). -/
def telnet_init (telopts : Option (List telnet_telopt_t)) (flags : Nat)
    (heap : List Bool) : telnet_t :=
  { telopts := telopts, flags := flags, q := [], q_size := 0,
    buffer := [], buffer_size := 0, state := .data, sb_telopt := 0,
    allocOk := heap }

/-- One `realloc` call consulting the allocation oracle. -/
def allocStep (t : telnet_t) : telnet_t × Bool :=
  match t.allocOk with
  | [] => (t, true)
  | ok :: rest => ({ t with allocOk := rest }, ok)

/-- `_error`: emits TELNET_EV_ERROR when fatal, TELNET_EV_WARNING
otherwise, carrying the error code (C also formats a message, which we
do not model). -/
def _error (fatal : Bool) (err : telnet_error_t) : telnet_event_t :=
  if fatal then .evError err else .evWarning err

/-- `_send` (no zlib): pass the bytes to the SEND event. -/
def _send (bytes : List Nat) : List telnet_event_t :=
  [.evSend bytes]

/-! ## Option-support table and RFC1143 queue -/

/-- `_check_telopt`: first matching row decides; `us` selects the
column compared (us against TELNET_WILL, him against TELNET_DO). -/
def _check_telopt (t : telnet_t) (telopt : Nat) (us : Bool) : Bool :=
  match t.telopts with
  | none => false
  | some table =>
    match table.find? (fun e => e.telopt == telopt) with
    | none => false
    | some e => if us then e.us == TELNET_WILL else e.him == TELNET_DO

/-- `_get_rfc1143`: first matching live entry, else the empty value
`{telopt, 0, 0}` (Q_NO/Q_NO). -/
def _get_rfc1143 (t : telnet_t) (telopt : Nat) : telnet_rfc1143_t :=
  match (t.q.take t.q_size).find? (fun e => e.telopt == telopt) with
  | some e => e
  | none => { telopt := telopt, us := 0, him := 0 }

/-- The in-place update loop of `_set_rfc1143`: rewrite the us/him of
the first entry whose telopt matches, `none` when there is no match. -/
def _set_upd (l : List telnet_rfc1143_t) (telopt us him : Nat) :
    Option (List telnet_rfc1143_t) :=
  match l with
  | [] => none
  | e :: rest =>
    if e.telopt = telopt then some ({ e with us := us, him := him } :: rest)
    else
      match _set_upd rest telopt us him with
      | some rest' => some (e :: rest')
      | none => none

/-- `_set_rfc1143`: update the first matching live entry in place, or
grow the queue.  Growth reallocates to `q_size + 4` entries (keeping
the first `q_size`), zero-fills the new block, writes the new entry at
index `q_size` and adds 4 to the 8-bit `q_size` counter.  On `realloc`
failure a non-fatal ENOMEM is reported and nothing changes. -/
def _set_rfc1143 (t : telnet_t) (telopt us him : Nat) :
    telnet_t × List telnet_event_t :=
  match _set_upd (t.q.take t.q_size) telopt us him with
  | some live' => ({ t with q := live' ++ t.q.drop t.q_size }, [])
  | none =>
    let a := allocStep t
    if a.2 then
      ({ a.1 with
          q := a.1.q.take a.1.q_size ++
            [⟨telopt, us, him⟩, ⟨0, 0, 0⟩, ⟨0, 0, 0⟩, ⟨0, 0, 0⟩],
          q_size := (a.1.q_size + 4) % 256 }, [])
    else (a.1, [_error false .enomem])

/-- `_send_negotiate`: IAC cmd telopt. -/
def _send_negotiate (cmd telopt : Nat) : List telnet_event_t :=
  _send [TELNET_IAC, cmd, telopt]

/-- `_negotiate`: RFC1143 receive-side handling; dispatches on the
decoder state (WILL/WONT/DO/DONT) that routed the option byte here.
In PROXY mode only the event is surfaced. -/
def _negotiate (t : telnet_t) (telopt : Nat) : telnet_t × List telnet_event_t :=
  if t.flags &&& TELNET_FLAG_PROXY ≠ 0 then
    (t, match t.state with
        | .will => [.evWill telopt]
        | .wont => [.evWont telopt]
        | .tdo => [.evDo telopt]
        | .dont => [.evDont telopt]
        | _ => [])
  else
    let q := _get_rfc1143 t telopt
    match t.state with
    | .will =>
      match q.him with
      | 0 =>
        if _check_telopt t telopt false then
          let r := _set_rfc1143 t telopt q.us Q_YES
          (r.1, r.2 ++ _send_negotiate TELNET_DO telopt ++ [.evWill telopt])
        else (t, _send_negotiate TELNET_DONT telopt)
      | 2 =>
        let r := _set_rfc1143 t telopt q.us Q_NO
        (r.1, r.2 ++ [.evWont telopt, _error false .eprotocol])
      | 4 =>
        let r := _set_rfc1143 t telopt q.us Q_YES
        (r.1, r.2 ++ [.evWill telopt, _error false .eprotocol])
      | 3 =>
        let r := _set_rfc1143 t telopt q.us Q_YES
        (r.1, r.2 ++ [.evWill telopt])
      | 5 =>
        let r := _set_rfc1143 t telopt q.us Q_WANTNO
        (r.1, r.2 ++ _send_negotiate TELNET_DONT telopt ++ [.evWill telopt])
      | _ => (t, [])
    | .wont =>
      match q.him with
      | 1 =>
        let r := _set_rfc1143 t telopt q.us Q_NO
        (r.1, r.2 ++ _send_negotiate TELNET_DONT telopt ++ [.evWont telopt])
      | 2 =>
        let r := _set_rfc1143 t telopt q.us Q_NO
        (r.1, r.2 ++ [.evWont telopt])
      | 4 =>
        let r := _set_rfc1143 t telopt q.us Q_WANTYES
        (r.1, r.2 ++ [.evDo telopt])
      | 3 =>
        let r := _set_rfc1143 t telopt q.us Q_NO
        (r.1, r.2)
      | 5 =>
        let r := _set_rfc1143 t telopt q.us Q_NO
        (r.1, r.2)
      | _ => (t, [])
    | .tdo =>
      match q.us with
      | 0 =>
        if _check_telopt t telopt true then
          let r := _set_rfc1143 t telopt Q_YES q.him
          (r.1, r.2 ++ _send_negotiate TELNET_WILL telopt ++ [.evDo telopt])
        else (t, _send_negotiate TELNET_WONT telopt)
      | 2 =>
        let r := _set_rfc1143 t telopt Q_NO q.him
        (r.1, r.2 ++ [.evDont telopt, _error false .eprotocol])
      | 4 =>
        let r := _set_rfc1143 t telopt Q_YES q.him
        (r.1, r.2 ++ [.evDo telopt, _error false .eprotocol])
      | 3 =>
        let r := _set_rfc1143 t telopt Q_YES q.him
        (r.1, r.2 ++ [.evDo telopt])
      | 5 =>
        let r := _set_rfc1143 t telopt Q_WANTNO q.him
        (r.1, r.2 ++ _send_negotiate TELNET_WONT telopt ++ [.evDo telopt])
      | _ => (t, [])
    | .dont =>
      match q.us with
      | 1 =>
        let r := _set_rfc1143 t telopt Q_NO q.him
        (r.1, r.2 ++ _send_negotiate TELNET_WONT telopt ++ [.evDont telopt])
      | 2 =>
        let r := _set_rfc1143 t telopt Q_NO q.him
        (r.1, r.2 ++ [.evWont telopt])
      | 4 =>
        let r := _set_rfc1143 t telopt Q_WANTYES q.him
        (r.1, r.2 ++ [.evWill telopt])
      | 3 =>
        let r := _set_rfc1143 t telopt Q_NO q.him
        (r.1, r.2)
      | 5 =>
        let r := _set_rfc1143 t telopt Q_NO q.him
        (r.1, r.2)
      | _ => (t, [])
    | _ => (t, [])

/-- `telnet_negotiate`: caller-initiated negotiation through the
initiator-side RFC1143 tables (PROXY mode sends verbatim). -/
def telnet_negotiate (t : telnet_t) (cmd telopt : Nat) :
    telnet_t × List telnet_event_t :=
  if t.flags &&& TELNET_FLAG_PROXY ≠ 0 then
    (t, _send [TELNET_IAC, cmd, telopt])
  else
    let q := _get_rfc1143 t telopt
    if cmd = TELNET_WILL then
      match q.us with
      | 0 =>
        let r := _set_rfc1143 t telopt Q_WANTYES q.him
        (r.1, r.2 ++ _send_negotiate TELNET_WILL telopt)
      | 2 =>
        let r := _set_rfc1143 t telopt Q_WANTNO_OP q.him
        (r.1, r.2)
      | 5 =>
        let r := _set_rfc1143 t telopt Q_WANTYES q.him
        (r.1, r.2)
      | _ => (t, [])
    else if cmd = TELNET_WONT then
      match q.us with
      | 1 =>
        let r := _set_rfc1143 t telopt Q_WANTNO q.him
        (r.1, r.2 ++ _send_negotiate TELNET_WONT telopt)
      | 3 =>
        let r := _set_rfc1143 t telopt Q_WANTYES_OP q.him
        (r.1, r.2)
      | 4 =>
        let r := _set_rfc1143 t telopt Q_WANTNO q.him
        (r.1, r.2)
      | _ => (t, [])
    else if cmd = TELNET_DO then
      match q.him with
      | 0 =>
        let r := _set_rfc1143 t telopt q.us Q_WANTYES
        (r.1, r.2 ++ _send_negotiate TELNET_DO telopt)
      | 2 =>
        let r := _set_rfc1143 t telopt q.us Q_WANTNO_OP
        (r.1, r.2)
      | 5 =>
        let r := _set_rfc1143 t telopt q.us Q_WANTYES
        (r.1, r.2)
      | _ => (t, [])
    else if cmd = TELNET_DONT then
      match q.him with
      | 1 =>
        let r := _set_rfc1143 t telopt q.us Q_WANTNO
        (r.1, r.2 ++ _send_negotiate TELNET_DONT telopt)
      | 3 =>
        let r := _set_rfc1143 t telopt q.us Q_WANTYES_OP
        (r.1, r.2)
      | 4 =>
        let r := _set_rfc1143 t telopt q.us Q_WANTNO
        (r.1, r.2)
      | _ => (t, [])
    else (t, [])

/-! ## Subnegotiation parsers (`_subnegotiate`) -/

/-- `dropWhile` never lengthens a list (helper for termination). -/
theorem dropWhileLenLe (p : Nat → Bool) (l : List Nat) :
    (l.dropWhile p).length ≤ l.length := by
  induction l with
  | nil => simp [List.dropWhile]
  | cons a l ih =>
    simp only [List.dropWhile]
    split
    · simp only [List.length_cons]; omega
    · simp

/-- ZMP argument walk: `c += strlen(c) + 1` repeated over the buffer;
each argument is the bytes up to (not including) the next NUL. -/
def zmpSplit : List Nat → List (List Nat)
  | [] => []
  | b :: rest =>
    (b :: rest).takeWhile (fun x => x ≠ 0) ::
      zmpSplit (((b :: rest).dropWhile (fun x => x ≠ 0)).tail)
termination_by l => l.length
decreasing_by
  simp only [List.length_tail]
  have h := dropWhileLenLe (fun x => decide (x ≠ 0)) (b :: rest)
  simp only [List.length_cons] at *
  omega

/-- The type-and-data argument walk (TTYPE/ENVIRON/NEW-ENVIRON/MSSP):
each argument starts at a byte in 0..3 and extends over the following
bytes greater than 3 (`c = l + 1; while (... *c > 3) ++c`).  The C
code runs this loop exactly `argc` times where `argc` counts the bytes
in 0..3; `sbSplit_length` below shows the walk makes exactly that many
arguments, so the recursion-until-empty form is the same walk. -/
def sbSplit : List Nat → List (List Nat)
  | [] => []
  | m :: rest =>
    (m :: rest.takeWhile (fun x => 3 < x)) ::
      sbSplit (rest.dropWhile (fun x => 3 < x))
termination_by l => l.length
decreasing_by
  have h := dropWhileLenLe (fun x => decide (3 < x)) rest
  simp only [List.length_cons]
  omega

/-- `_subnegotiate` without zlib: the COMPRESS2 case is compiled out
(so the function's int result is always 0 and is not modelled), and the
`alloca` NULL checks are dead.  Dispatch: ZMP buffers must end in NUL
(else protocol warning and a generic event); the type-and-data family
requires a first byte in 0..3; everything else is generic.  The state
is never modified, only events are produced. -/
def _subnegotiate (t : telnet_t) : List telnet_event_t :=
  if t.sb_telopt = TELNET_TELOPT_ZMP then
    if t.buffer.length = 0 ∨ t.buffer.getLast? ≠ some 0 then
      [_error false .eprotocol, .evSubnegotiation t.sb_telopt t.buffer []]
    else
      [.evSubnegotiation t.sb_telopt t.buffer (zmpSplit t.buffer)]
  else if t.sb_telopt = TELNET_TELOPT_TTYPE ∨
      t.sb_telopt = TELNET_TELOPT_ENVIRON ∨
      t.sb_telopt = TELNET_TELOPT_NEW_ENVIRON ∨
      t.sb_telopt = TELNET_TELOPT_MSSP then
    if t.buffer.length = 0 then
      [.evSubnegotiation t.sb_telopt t.buffer []]
    else if 3 < t.buffer.headD 0 then
      [_error false .eprotocol, .evSubnegotiation t.sb_telopt t.buffer []]
    else
      [.evSubnegotiation t.sb_telopt t.buffer (sbSplit t.buffer)]
  else
    [.evSubnegotiation t.sb_telopt t.buffer []]

/-! ## Subnegotiation buffer (`_buffer_byte`) -/

/-- The buffer size ladder (`_buffer_sizes`). -/
def _buffer_sizes : List Nat := [0, 512, 2048, 8192, 16384]

/-- The rung-search loop of `_buffer_byte`
(`for (i = 0; i != _buffer_sizes_count; ++i) if (_buffer_sizes[i] == size) break`):
index of the first ladder entry equal to `sz`, `none` when the loop
runs off the end. -/
def findSize : List Nat → Nat → Option Nat
  | [], _ => none
  | s :: rest, sz =>
    if s = sz then some 0 else (findSize rest sz).map (· + 1)

/-- `_buffer_byte`: push one byte into the subnegotiation buffer,
growing one rung when full.  Returns the new state, the
`telnet_error_t` result, and the warning events emitted. -/
def _buffer_byte (t : telnet_t) (byte : Nat) :
    telnet_t × telnet_error_t × List telnet_event_t :=
  if t.buffer.length = t.buffer_size then
    match findSize _buffer_sizes t.buffer_size with
    | none => (t, .eoverflow, [_error false .eoverflow])
    | some i =>
      if _buffer_sizes.length - 1 ≤ i then
        (t, .eoverflow, [_error false .eoverflow])
      else
        let a := allocStep t
        let sz := _buffer_sizes.getD (i + 1) 0
        if a.2 then
          ({ a.1 with buffer_size := sz, buffer := a.1.buffer ++ [byte] },
            .eok, [])
        else (a.1, .enomem, [_error false .enomem])
  else
    ({ t with buffer := t.buffer ++ [byte] }, .eok, [])

/-! ## The byte decoder (`_process`) -/

/-- The TELNET_STATE_IAC case of `_process`: dispatch the byte after an
IAC.  The `_process(telnet, &byte, 1)` recursion in the
TELNET_STATE_SB_DATA_IAC default case runs exactly this dispatch (the
nested call starts in state IAC and consumes one byte). -/
def iacStep (t : telnet_t) (byte : Nat) : telnet_t × List telnet_event_t :=
  if byte = TELNET_SB then ({ t with state := .sb }, [])
  else if byte = TELNET_WILL then ({ t with state := .will }, [])
  else if byte = TELNET_WONT then ({ t with state := .wont }, [])
  else if byte = TELNET_DO then ({ t with state := .tdo }, [])
  else if byte = TELNET_DONT then ({ t with state := .dont }, [])
  else if byte = TELNET_IAC then
    ({ t with state := .data }, [.evData [TELNET_IAC]])
  else ({ t with state := .data }, [.evIac byte])

/-- One non-DATA-state iteration of the `_process` loop (the DATA state
additionally manages the pending run `buffer[start .. i)` and is
handled in `processLoop`).  Every branch that in C performs
`start = i + 1; state = ...` corresponds to the caller restarting with
an empty pending run; branches that leave `start` stale (SB, SB_DATA
buffering) never let the stale run reach a DATA emission, so the
pending run is immaterial in these states.  Without zlib,
`_subnegotiate` always "returns 0", so the COMPRESS2 reprocessing
branches are dead and the loop always just continues. -/
def stepB (t : telnet_t) (byte : Nat) : telnet_t × List telnet_event_t :=
  match t.state with
  | .data =>
    if byte = TELNET_IAC then ({ t with state := .iac }, [])
    else (t, [.evData [byte]])
  | .iac => iacStep t byte
  | .will | .wont | .tdo | .dont =>
    let r := _negotiate t byte
    ({ r.1 with state := .data }, r.2)
  | .sb =>
    ({ t with sb_telopt := byte, buffer := [], state := .sbData }, [])
  | .sbData =>
    if byte = TELNET_IAC then ({ t with state := .sbDataIac }, [])
    else
      let r := _buffer_byte t byte
      if r.2.1 = .eok then (r.1, r.2.2)
      else ({ r.1 with state := .data }, r.2.2)
  | .sbDataIac =>
    if byte = TELNET_SE then
      let t1 := { t with state := .data }
      (t1, _subnegotiate t1)
    else if byte = TELNET_IAC then
      let r := _buffer_byte t TELNET_IAC
      if r.2.1 = .eok then ({ r.1 with state := .sbData }, r.2.2)
      else ({ r.1 with state := .data }, r.2.2)
    else
      let t1 := { t with state := .iac }
      let evs1 := _subnegotiate t1
      let r := iacStep t1 byte
      (r.1, _error false .eprotocol :: (evs1 ++ r.2))

/-- The loop of `_process`.  `pending` is the pending DATA run
`buffer[start .. i)`: in the DATA state a non-IAC byte extends it, an
IAC byte flushes it as one DATA event; when the input ends the run is
flushed provided the decoder is back in DATA state.  All other states
are one `stepB` iteration. -/
def processLoop (t : telnet_t) (pending rest : List Nat) :
    telnet_t × List telnet_event_t :=
  match rest with
  | [] =>
    (t, if t.state = .data ∧ pending ≠ [] then [.evData pending] else [])
  | byte :: rest' =>
    if t.state = .data then
      if byte = TELNET_IAC then
        let flush : List telnet_event_t :=
          if pending ≠ [] then [.evData pending] else []
        let r := processLoop { t with state := .iac } [] rest'
        (r.1, flush ++ r.2)
      else processLoop t (pending ++ [byte]) rest'
    else
      let s := stepB t byte
      let r := processLoop s.1 [] rest'
      (r.1, s.2 ++ r.2)

/-- `_process`: run the loop from an empty pending run. -/
def _process (t : telnet_t) (buffer : List Nat) :
    telnet_t × List telnet_event_t :=
  processLoop t [] buffer

/-- `telnet_recv` without zlib: just `_process`. -/
def telnet_recv (t : telnet_t) (buffer : List Nat) :
    telnet_t × List telnet_event_t :=
  _process t buffer

/-! ## Encoder -/

/-- `telnet_iac`: send IAC cmd. -/
def telnet_iac (cmd : Nat) : List telnet_event_t :=
  _send [TELNET_IAC, cmd]

/-- The loop of `telnet_send`: dump the pending chunk before each IAC,
send IAC IAC for it, and dump whatever is left at the end. -/
def sendLoop (pending : List Nat) : List Nat → List telnet_event_t
  | [] => if pending ≠ [] then _send pending else []
  | b :: rest =>
    if b = TELNET_IAC then
      (if pending ≠ [] then _send pending else []) ++
        telnet_iac TELNET_IAC ++ sendLoop [] rest
    else sendLoop (pending ++ [b]) rest

/-- `telnet_send`: send application data with IAC escaped.  Without
zlib the state tracker is not read or written, so only the events are
produced. -/
def telnet_send (bytes : List Nat) : List telnet_event_t :=
  sendLoop [] bytes

/-! ## Derived notions used to state the claims -/

/-- IAC escaping of a payload: every 0xFF is doubled. -/
def iacEscape : List Nat → List Nat
  | [] => []
  | b :: rest =>
    (if b = TELNET_IAC then [b, b] else [b]) ++ iacEscape rest

/-- Concatenation of the payloads of all SEND events, in order: the
bytes an event-handler would put on the wire. -/
def sendPayloads : List telnet_event_t → List Nat
  | [] => []
  | .evSend bs :: rest => bs ++ sendPayloads rest
  | _ :: rest => sendPayloads rest

/-- Concatenation of the payloads of all DATA events, in order. -/
def dataPayloads : List telnet_event_t → List Nat
  | [] => []
  | .evData bs :: rest => bs ++ dataPayloads rest
  | _ :: rest => dataPayloads rest

/-- Every event in the list is a DATA event. -/
def allData (evs : List telnet_event_t) : Prop :=
  ∀ e ∈ evs, ∃ bs, e = telnet_event_t.evData bs

/-- The SUBNEGOTIATION events of an event list. -/
def subEvents : List telnet_event_t → List telnet_event_t
  | [] => []
  | .evSubnegotiation o b a :: rest =>
    .evSubnegotiation o b a :: subEvents rest
  | _ :: rest => subEvents rest

/-- One single-byte DATA event per byte. -/
def dataSingles (p : List Nat) : List telnet_event_t :=
  p.map (fun b => .evData [b])

/-- Normalisation for comparing event streams across DATA coalescing
boundaries: every DATA event is exploded into its single-byte DATA
events; all other events are kept as they are. -/
def explodeData : List telnet_event_t → List telnet_event_t
  | [] => []
  | .evData bs :: rest => dataSingles bs ++ explodeData rest
  | e :: rest => e :: explodeData rest

/-- Per-byte run of the decoder, emitting data bytes immediately (the
decoder semantics with all DATA coalescing removed). -/
def stepRun (t : telnet_t) : List Nat → telnet_t × List telnet_event_t
  | [] => (t, [])
  | b :: rest =>
    let s := stepB t b
    let r := stepRun s.1 rest
    (r.1, s.2 ++ r.2)

/-- Feed a list of slices to `telnet_recv` one after the other,
collecting all events. -/
def recvAll (t : telnet_t) : List (List Nat) → telnet_t × List telnet_event_t
  | [] => (t, [])
  | bs :: rest =>
    let r1 := telnet_recv t bs
    let r2 := recvAll r1.1 rest
    (r2.1, r1.2 ++ r2.2)

/-- Concatenation of a list of slices. -/
def flattenL : List (List Nat) → List Nat
  | [] => []
  | l :: rest => l ++ flattenL rest

/-- Run a list of `telnet_negotiate` calls (cmd, telopt) in order,
keeping only the tracker. -/
def negotiateMany (t : telnet_t) : List (Nat × Nat) → telnet_t
  | [] => t
  | p :: rest => negotiateMany (telnet_negotiate t p.1 p.2).1 rest

/-- States reachable through the public state-mutating API (the other
entry points — `telnet_send`, `telnet_iac`, subnegotiation senders —
do not touch the tracker in the non-zlib build). -/
inductive Reachable : telnet_t → Prop where
  | init : ∀ telopts flags heap, Reachable (telnet_init telopts flags heap)
  | recv : ∀ t bs, Reachable t → Reachable (telnet_recv t bs).1
  | negotiate : ∀ t cmd telopt, Reachable t →
      Reachable (telnet_negotiate t cmd telopt).1

/-- Subnegotiation-buffer invariant: the capacity is on the ladder and
the length never exceeds the capacity. -/
def BufferInv (t : telnet_t) : Prop :=
  t.buffer_size ∈ _buffer_sizes ∧ t.buffer.length ≤ t.buffer_size

/-- Negotiation-queue size invariant: the allocation holds at most 256
entries, in blocks of four, and the 8-bit `q_size` counter is the
allocation size mod 256. -/
def QSizeInv (t : telnet_t) : Prop :=
  t.q.length ≤ 256 ∧ 4 ∣ t.q.length ∧ t.q_size = t.q.length % 256

/-- The duplicate-entry relation: a later live entry with the same
option as an earlier one must carry the inert state (NO, NO). -/
def qDupR (a b : telnet_rfc1143_t) : Prop :=
  a.telopt = b.telopt → b.us = 0 ∧ b.him = 0

/-- Queue-content invariant: among the live entries, any entry other
than the first one for its option is inert (zero padding). -/
def QDupInv (t : telnet_t) : Prop :=
  (t.q.take t.q_size).Pairwise qDupR

/-! ## Per-step lemmas about the decoder -/

/-- Decoding IAC IAC from a DATA-state tracker emits exactly one
single-byte DATA event carrying 0xFF and restores the tracker. -/
theorem iac_iac_data (t : telnet_t) (h : t.state = .data) :
    _process t [TELNET_IAC, TELNET_IAC] = (t, [.evData [TELNET_IAC]]) := by
  obtain ⟨tel, fl, q, qs, buf, bufsz, st, sbt, al⟩ := t
  simp only at h
  subst h
  simp [_process, processLoop, stepB, iacStep, TELNET_IAC, TELNET_SB,
    TELNET_WILL, TELNET_WONT, TELNET_DO, TELNET_DONT, TELNET_SE]

/-- Decoding IAC X for X outside the dispatching command bytes emits a
COMMAND event carrying X and returns the tracker to DATA unchanged. -/
theorem iac_other_data (t : telnet_t) (X : Nat) (h : t.state = .data)
    (h1 : X ≠ TELNET_SB) (h2 : X ≠ TELNET_WILL) (h3 : X ≠ TELNET_WONT)
    (h4 : X ≠ TELNET_DO) (h5 : X ≠ TELNET_DONT) (h6 : X ≠ TELNET_IAC) :
    _process t [TELNET_IAC, X] = (t, [.evIac X]) := by
  simp only [TELNET_SB, TELNET_WILL, TELNET_WONT, TELNET_DO, TELNET_DONT,
    TELNET_IAC] at h1 h2 h3 h4 h5 h6
  obtain ⟨tel, fl, q, qs, buf, bufsz, st, sbt, al⟩ := t
  simp only at h
  subst h
  simp [_process, processLoop, stepB, iacStep, h1, h2, h3, h4, h5, h6,
    TELNET_IAC, TELNET_SE, TELNET_SB, TELNET_WILL, TELNET_WONT, TELNET_DO,
    TELNET_DONT]

/-- `allocStep` only consumes the oracle: every other field survives. -/
theorem allocStep_fields (t : telnet_t) :
    (allocStep t).1.buffer = t.buffer ∧
    (allocStep t).1.buffer_size = t.buffer_size ∧
    (allocStep t).1.state = t.state ∧
    (allocStep t).1.q = t.q ∧
    (allocStep t).1.q_size = t.q_size ∧
    (allocStep t).1.telopts = t.telopts ∧
    (allocStep t).1.flags = t.flags ∧
    (allocStep t).1.sb_telopt = t.sb_telopt := by
  unfold allocStep
  cases t.allocOk <;> simp

/-- A found rung index is in range. -/
theorem findSize_lt (l : List Nat) (sz i : Nat)
    (h : findSize l sz = some i) : i < l.length := by
  induction l generalizing i with
  | nil => simp [findSize] at h
  | cons s rest ih =>
    unfold findSize at h
    split at h
    · simp at h
      subst h
      simp
    · cases hr : findSize rest sz with
      | none => rw [hr] at h; simp at h
      | some j =>
        rw [hr] at h
        simp at h
        have := ih j hr
        simp
        omega

/-- Complete case analysis of `_buffer_byte`. -/
theorem bb_cases (t : telnet_t) (b : Nat) :
    (t.buffer.length ≠ t.buffer_size ∧
      _buffer_byte t b = ({ t with buffer := t.buffer ++ [b] }, .eok, []))
    ∨ (t.buffer.length = t.buffer_size ∧
        (findSize _buffer_sizes t.buffer_size = none ∨
          findSize _buffer_sizes t.buffer_size = some (_buffer_sizes.length - 1)) ∧
        _buffer_byte t b = (t, .eoverflow, [.evWarning .eoverflow]))
    ∨ (∃ i, t.buffer.length = t.buffer_size ∧
        findSize _buffer_sizes t.buffer_size = some i ∧
        i < _buffer_sizes.length - 1 ∧ (allocStep t).2 = true ∧
        _buffer_byte t b =
          ({ (allocStep t).1 with
              buffer_size := _buffer_sizes.getD (i + 1) 0,
              buffer := t.buffer ++ [b] }, .eok, []))
    ∨ (∃ i, t.buffer.length = t.buffer_size ∧
        findSize _buffer_sizes t.buffer_size = some i ∧
        i < _buffer_sizes.length - 1 ∧ (allocStep t).2 = false ∧
        _buffer_byte t b = ((allocStep t).1, .enomem, [.evWarning .enomem])) := by
  by_cases hlen : t.buffer.length = t.buffer_size
  · cases hfs : findSize _buffer_sizes t.buffer_size with
    | none =>
      right; left
      refine ⟨hlen, Or.inl rfl, ?_⟩
      unfold _buffer_byte
      simp [hlen, hfs, _error]
    | some i =>
      by_cases hi : _buffer_sizes.length - 1 ≤ i
      · right; left
        have hieq : i = _buffer_sizes.length - 1 := by
          have hlt := findSize_lt _buffer_sizes t.buffer_size i hfs
          omega
        refine ⟨hlen, Or.inr (by rw [hieq]), ?_⟩
        unfold _buffer_byte
        simp [hlen, hfs, hi, _error]
      · cases ha : (allocStep t).2 with
        | true =>
          right; right; left
          refine ⟨i, hlen, rfl, by omega, rfl, ?_⟩
          unfold _buffer_byte
          simp [hlen, hfs, hi, ha, (allocStep_fields t).1]
        | false =>
          right; right; right
          refine ⟨i, hlen, rfl, by omega, rfl, ?_⟩
          unfold _buffer_byte
          simp [hlen, hfs, hi, ha, _error]
  · left
    refine ⟨hlen, ?_⟩
    unfold _buffer_byte
    simp [hlen]

/-- A failing `_buffer_byte` reports ENOMEM or EOVERFLOW and its event
list is exactly the matching non-fatal warning. -/
theorem bb_fail (t : telnet_t) (b : Nat)
    (h : (_buffer_byte t b).2.1 ≠ .eok) :
    ((_buffer_byte t b).2.1 = .enomem ∨ (_buffer_byte t b).2.1 = .eoverflow) ∧
    (_buffer_byte t b).2.2 = [.evWarning (_buffer_byte t b).2.1] := by
  rcases bb_cases t b with ⟨_, he⟩ | ⟨_, _, he⟩ | ⟨i, _, _, _, _, he⟩ |
    ⟨i, _, _, _, _, he⟩ <;> rw [he] at h ⊢ <;> simp_all

/-- A successful `_buffer_byte` appends the byte, emits nothing, and
touches nothing but the buffer fields and the allocation oracle. -/
theorem bb_ok (t : telnet_t) (b : Nat)
    (h : (_buffer_byte t b).2.1 = .eok) :
    (_buffer_byte t b).2.2 = [] ∧
    (_buffer_byte t b).1.buffer = t.buffer ++ [b] ∧
    (_buffer_byte t b).1.state = t.state ∧
    (_buffer_byte t b).1.q = t.q ∧
    (_buffer_byte t b).1.q_size = t.q_size ∧
    (_buffer_byte t b).1.telopts = t.telopts ∧
    (_buffer_byte t b).1.flags = t.flags ∧
    (_buffer_byte t b).1.sb_telopt = t.sb_telopt := by
  have hal := allocStep_fields t
  rcases bb_cases t b with ⟨_, he⟩ | ⟨_, _, he⟩ | ⟨i, _, _, _, _, he⟩ |
    ⟨i, _, _, _, _, he⟩ <;> rw [he] at h ⊢ <;> simp_all

/-- Appending to the subnegotiation buffer in state SB_DATA fails:
only the warning is emitted for this byte (no SUBNEGOTIATION event),
the tracker drops to DATA, and decoding continues on the rest. -/
theorem sbdata_abort (t : telnet_t) (b : Nat) (pending rest : List Nat)
    (hst : t.state = .sbData) (hb : b ≠ TELNET_IAC)
    (hf : (_buffer_byte t b).2.1 ≠ .eok) :
    processLoop t pending (b :: rest) =
      ((processLoop { (_buffer_byte t b).1 with state := .data } [] rest).1,
       .evWarning (_buffer_byte t b).2.1 ::
         (processLoop { (_buffer_byte t b).1 with state := .data } [] rest).2) := by
  have hw := (bb_fail t b hf).2
  simp [processLoop, stepB, hst, hb, hf, hw]

/-- The escaped-IAC append inside a subnegotiation fails: same abort
behaviour as `sbdata_abort`. -/
theorem sbdataiac_abort (t : telnet_t) (pending rest : List Nat)
    (hst : t.state = .sbDataIac)
    (hf : (_buffer_byte t TELNET_IAC).2.1 ≠ .eok) :
    processLoop t pending (TELNET_IAC :: rest) =
      ((processLoop { (_buffer_byte t TELNET_IAC).1 with state := .data } []
          rest).1,
       .evWarning (_buffer_byte t TELNET_IAC).2.1 ::
         (processLoop { (_buffer_byte t TELNET_IAC).1 with state := .data } []
           rest).2) := by
  have hw := (bb_fail t TELNET_IAC hf).2
  simp only [TELNET_IAC] at hf hw ⊢
  simp [processLoop, stepB, hst, hf, hw, TELNET_IAC, TELNET_SE]

/-- Capturing a fresh SB option byte resets the buffer length to zero
(and records the subnegotiation option). -/
theorem sb_capture (t : telnet_t) (b : Nat) (pending rest : List Nat)
    (hst : t.state = .sb) :
    processLoop t pending (b :: rest) =
      processLoop { t with sb_telopt := b, buffer := [], state := .sbData }
        [] rest := by
  simp [processLoop, stepB, hst]

/-- A byte other than SE and IAC in state SB_DATA_IAC: a protocol
warning is recorded, the open subnegotiation buffer is processed, and
the decoder behaves exactly as if it had been in state IAC with that
byte as the next input. -/
theorem sbdataiac_other (t : telnet_t) (b : Nat) (pending rest : List Nat)
    (hst : t.state = .sbDataIac) (h1 : b ≠ TELNET_SE) (h2 : b ≠ TELNET_IAC) :
    processLoop t pending (b :: rest) =
      ((processLoop { t with state := .iac } [] (b :: rest)).1,
       .evWarning .eprotocol ::
         (_subnegotiate { t with state := .iac } ++
           (processLoop { t with state := .iac } [] (b :: rest)).2)) := by
  simp [processLoop, stepB, hst, h1, h2, _error]

/-! ## The decoder as a per-byte machine -/

theorem explode_append (xs ys : List telnet_event_t) :
    explodeData (xs ++ ys) = explodeData xs ++ explodeData ys := by
  induction xs with
  | nil => simp [explodeData]
  | cons e xs ih => cases e <;> simp [explodeData, ih]

theorem dataSingles_append (xs ys : List Nat) :
    dataSingles (xs ++ ys) = dataSingles xs ++ dataSingles ys := by
  simp [dataSingles]

/-- `_set_rfc1143` emits nothing, or a single ENOMEM warning. -/
theorem set_events (t : telnet_t) (o u h : Nat) :
    (_set_rfc1143 t o u h).2 = [] ∨
    (_set_rfc1143 t o u h).2 = [.evWarning .enomem] := by
  unfold _set_rfc1143
  split
  · simp
  · simp only []
    split <;> simp [_error]

theorem explode_set (t : telnet_t) (o u h : Nat) :
    explodeData (_set_rfc1143 t o u h).2 = (_set_rfc1143 t o u h).2 := by
  rcases set_events t o u h with he | he <;> simp [he, explodeData]

theorem explode_negotiate (t : telnet_t) (b : Nat) :
    explodeData (_negotiate t b).2 = (_negotiate t b).2 := by
  unfold _negotiate
  split
  · split <;> simp [explodeData]
  · split <;>
      rcases hh : (_get_rfc1143 t b).him with _ | _ | _ | _ | _ | _ | n <;>
      rcases hu : (_get_rfc1143 t b).us with _ | _ | _ | _ | _ | _ | m <;>
      simp only [hh, hu] <;>
      (try split) <;>
      simp [hh, hu, explode_append, explode_set, explodeData, dataSingles,
        _send_negotiate, _send, _error]

theorem explode_subnegotiate (t : telnet_t) :
    explodeData (_subnegotiate t) = _subnegotiate t := by
  unfold _subnegotiate
  split <;> (try split) <;> (try split) <;> (try split) <;>
    simp [explodeData, _error]

theorem explode_iacStep (t : telnet_t) (b : Nat) :
    explodeData (iacStep t b).2 = (iacStep t b).2 := by
  unfold iacStep
  split <;> (try split) <;> (try split) <;> (try split) <;> (try split) <;>
    (try split) <;> simp [explodeData, dataSingles]

theorem explode_bb (t : telnet_t) (b : Nat) :
    explodeData (_buffer_byte t b).2.2 = (_buffer_byte t b).2.2 := by
  rcases bb_cases t b with ⟨_, he⟩ | ⟨_, _, he⟩ | ⟨i, _, _, _, _, he⟩ |
    ⟨i, _, _, _, _, he⟩ <;> rw [he] <;> simp [explodeData]

/-- `stepB` never emits a multi-byte DATA event, so the explode
normalisation leaves its output unchanged. -/
theorem explode_stepB (t : telnet_t) (b : Nat) :
    explodeData (stepB t b).2 = (stepB t b).2 := by
  unfold stepB
  split
  · split <;> simp [explodeData, dataSingles]
  · exact explode_iacStep t b
  any_goals
    simp [explode_negotiate]
  · simp [explodeData]
  · split
    · simp [explodeData]
    · split <;> simp [explode_bb]
  · split
    · simp [explode_subnegotiate]
    · split
      · split <;> simp [explode_bb]
      · simp [explode_append, explode_subnegotiate, explode_iacStep,
          explodeData, _error]

/-- The `_process` loop is the per-byte machine with DATA coalescing:
the final trackers agree, and after exploding DATA events the event
streams agree up to the pending run carried in. -/
theorem processLoop_stepRun (bs : List Nat) : ∀ (t : telnet_t)
    (pending : List Nat), (pending ≠ [] → t.state = .data) →
    (processLoop t pending bs).1 = (stepRun t bs).1 ∧
    explodeData (processLoop t pending bs).2 =
      dataSingles pending ++ (stepRun t bs).2 := by
  induction bs with
  | nil =>
    intro t pending hp
    refine ⟨by simp [processLoop, stepRun], ?_⟩
    simp only [processLoop, stepRun]
    split
    · rename_i hcond
      simp [explodeData, dataSingles]
    · rename_i hcond
      have hpe : pending = [] := by
        by_contra hne
        exact hcond ⟨hp hne, hne⟩
      simp [hpe, explodeData, dataSingles]
  | cons b rest ih =>
    intro t pending hp
    by_cases hst : t.state = .data
    · by_cases hb : b = TELNET_IAC
      · subst hb
        have ih' := ih { t with state := .iac } [] (by simp)
        constructor
        · simp [processLoop, hst, stepRun, stepB, ih'.1]
        · simp only [processLoop, hst, if_true, stepRun, stepB, if_pos rfl]
          rw [explode_append]
          rw [ih'.2]
          simp [explodeData, dataSingles]
          split <;> rename_i hpe <;> simp [hpe, explodeData, dataSingles]
      · have ih' := ih t (pending ++ [b]) (fun _ => hst)
        constructor
        · simp [processLoop, hst, hb, stepRun, stepB, ih'.1]
        · simp only [processLoop, hst, if_true, hb, if_false, stepRun, stepB]
          rw [ih'.2]
          simp [dataSingles_append, dataSingles, hb]
    · have hpe : pending = [] := by
        by_contra hne
        exact hst (hp hne)
      subst hpe
      have ih' := ih (stepB t b).1 [] (by simp)
      constructor
      · simp [processLoop, hst, stepRun, ih'.1]
      · simp only [processLoop, hst, if_false, stepRun]
        rw [explode_append, ih'.2, explode_stepB]
        simp [dataSingles]

/-- Running the per-byte machine over concatenated input is the
composition of the runs. -/
theorem stepRun_append (xs ys : List Nat) (t : telnet_t) :
    stepRun t (xs ++ ys) =
      ((stepRun (stepRun t xs).1 ys).1,
       (stepRun t xs).2 ++ (stepRun (stepRun t xs).1 ys).2) := by
  induction xs generalizing t with
  | nil => simp [stepRun]
  | cons b xs ih => simp [stepRun, ih, List.append_assoc]

/-- `telnet_recv` equals the per-byte machine up to DATA coalescing. -/
theorem recv_stepRun (t : telnet_t) (bs : List Nat) :
    (telnet_recv t bs).1 = (stepRun t bs).1 ∧
    explodeData (telnet_recv t bs).2 = (stepRun t bs).2 := by
  have h := processLoop_stepRun bs t [] (by simp)
  simpa [telnet_recv, _process, dataSingles] using h

/-! ## Encoder lemmas -/

theorem sendPayloads_append (xs ys : List telnet_event_t) :
    sendPayloads (xs ++ ys) = sendPayloads xs ++ sendPayloads ys := by
  induction xs with
  | nil => simp [sendPayloads]
  | cons e xs ih => cases e <;> simp [sendPayloads, ih]

/-- The wire bytes produced by the `telnet_send` loop: the carried
chunk followed by the IAC-escape of the remaining input. -/
theorem sendLoop_payloads (bs : List Nat) : ∀ pending : List Nat,
    sendPayloads (sendLoop pending bs) = pending ++ iacEscape bs := by
  induction bs with
  | nil =>
    intro pending
    by_cases hp : pending = [] <;>
      simp [sendLoop, sendPayloads, iacEscape, _send, hp]
  | cons b rest ih =>
    intro pending
    by_cases hb : b = TELNET_IAC
    · subst hb
      by_cases hp : pending = [] <;>
        simp [sendLoop, sendPayloads_append, sendPayloads, iacEscape, _send,
          telnet_iac, hp, ih]
    · simp [sendLoop, hb, ih, iacEscape]

theorem telnet_send_payloads (bs : List Nat) :
    sendPayloads (telnet_send bs) = iacEscape bs := by
  simpa using sendLoop_payloads bs []

/-! ## Decoding an IAC-escaped stream -/

theorem allData_append (xs ys : List telnet_event_t) :
    allData xs → allData ys → allData (xs ++ ys) := by
  intro hx hy e he
  rcases List.mem_append.1 he with h | h
  · exact hx e h
  · exact hy e h

theorem dataPayloads_append (xs ys : List telnet_event_t) :
    dataPayloads (xs ++ ys) = dataPayloads xs ++ dataPayloads ys := by
  induction xs with
  | nil => simp [dataPayloads]
  | cons e xs ih => cases e <;> simp [dataPayloads, ih]

/-- Rebuilding a tracker with its own state is the identity. -/
theorem set_state_self (t : telnet_t) (s : telnet_state_t)
    (h : t.state = s) : { t with state := s } = t := by
  cases t
  simp only at h
  simp [h]

/-- A data byte just extends the pending run. -/
theorem data_plain_step (t : telnet_t) (b : Nat) (pending rest : List Nat)
    (hst : t.state = .data) (hb : b ≠ TELNET_IAC) :
    processLoop t pending (b :: rest) = processLoop t (pending ++ [b]) rest := by
  simp [processLoop, hst, hb]

/-- IAC IAC in the DATA state: flush the pending run, emit DATA 0xFF,
and continue from the same tracker with an empty run. -/
theorem data_iac_iac_step (t : telnet_t) (pending rest : List Nat)
    (hst : t.state = .data) :
    processLoop t pending (TELNET_IAC :: TELNET_IAC :: rest) =
      ((processLoop t [] rest).1,
       (if pending ≠ [] then [telnet_event_t.evData pending] else []) ++
         (telnet_event_t.evData [TELNET_IAC] :: (processLoop t [] rest).2)) := by
  obtain ⟨tel, fl, q, qs, buf, bufsz, st, sbt, al⟩ := t
  simp only at hst
  subst hst
  simp [processLoop, stepB, iacStep, TELNET_IAC, TELNET_SB, TELNET_WILL,
    TELNET_WONT, TELNET_DO, TELNET_DONT, TELNET_SE]

/-- Decoding the IAC-escape of a payload from a DATA-state tracker:
the tracker is unchanged and the output is nothing but DATA events
reassembling the carried run followed by the payload. -/
theorem decode_escape (x : List Nat) : ∀ (t : telnet_t)
    (pending : List Nat), t.state = .data →
    (processLoop t pending (iacEscape x)).1 = t ∧
    allData (processLoop t pending (iacEscape x)).2 ∧
    dataPayloads (processLoop t pending (iacEscape x)).2 = pending ++ x ∧
    (pending ++ x ≠ [] → (processLoop t pending (iacEscape x)).2 ≠ []) := by
  induction x with
  | nil =>
    intro t pending hst
    by_cases hp : pending = [] <;>
      simp [iacEscape, processLoop, hst, hp, allData, dataPayloads]
  | cons b x ih =>
    intro t pending hst
    by_cases hb : b = TELNET_IAC
    · subst hb
      have hesc : iacEscape (TELNET_IAC :: x) =
          TELNET_IAC :: TELNET_IAC :: iacEscape x := by simp [iacEscape]
      have ih' := ih t [] hst
      rw [hesc, data_iac_iac_step t pending (iacEscape x) hst]
      refine ⟨ih'.1, ?_, ?_, ?_⟩
      · intro e he
        simp only [List.mem_append, List.mem_cons] at he
        rcases he with he | he | he
        · rcases List.mem_ite_nil_right.1 he with ⟨_, he⟩
          exact ⟨pending, List.mem_singleton.1 he ▸ rfl⟩
        · exact ⟨[TELNET_IAC], he ▸ rfl⟩
        · exact ih'.2.1 e he
      · by_cases hp : pending = [] <;>
          simp [hp, dataPayloads_append, dataPayloads, ih'.2.2.1]
      · intro _
        by_cases hp : pending = [] <;> simp [hp]
    · have hesc : iacEscape (b :: x) = b :: iacEscape x := by
        simp [iacEscape, hb]
      have ih' := ih t (pending ++ [b]) hst
      rw [hesc, data_plain_step t b pending (iacEscape x) hst hb]
      refine ⟨ih'.1, ih'.2.1, ?_, ?_⟩
      · rw [ih'.2.2.1]
        simp
      · intro _
        apply ih'.2.2.2
        simp

/-! ## Claim C1: data round trip -/

/-- Claim C1 counterexample: for the empty slice, `telnet_send`
produces no wire bytes and decoding them produces zero DATA events, so
"exactly one or more DATA events" fails at `x = []`. -/
theorem C1_counterexample :
    telnet_send ([] : List Nat) = [] ∧
    (telnet_recv (telnet_init none 0 [])
      (sendPayloads (telnet_send ([] : List Nat)))).2 = [] := by
  exact ⟨rfl, rfl⟩

/-- Claim C1 (amended: for non-empty slices): sending `x` as
application data and decoding the produced wire bytes on a fresh
tracker yields one or more DATA events, and nothing else, whose
concatenation is exactly `x` — in particular 0xFF bytes round-trip. -/
theorem C1_data_roundtrip (x : List Nat) (hx : x ≠ []) :
    allData (telnet_recv (telnet_init none 0 [])
        (sendPayloads (telnet_send x))).2 ∧
    dataPayloads (telnet_recv (telnet_init none 0 [])
        (sendPayloads (telnet_send x))).2 = x ∧
    (telnet_recv (telnet_init none 0 []) (sendPayloads (telnet_send x))).2 ≠
      [] := by
  rw [telnet_send_payloads]
  simp only [telnet_recv, _process]
  have h := decode_escape x (telnet_init none 0 []) [] rfl
  exact ⟨h.2.1, by simpa using h.2.2.1, h.2.2.2 (by simp [hx])⟩

/-- Witness for `C1_data_roundtrip` at x = 61 FF 62. -/
theorem C1_witness :
    (([97, 255, 98] : List Nat) ≠ []) ∧
    (allData (telnet_recv (telnet_init none 0 [])
        (sendPayloads (telnet_send [97, 255, 98]))).2 ∧
    dataPayloads (telnet_recv (telnet_init none 0 [])
        (sendPayloads (telnet_send [97, 255, 98]))).2 = [97, 255, 98] ∧
    (telnet_recv (telnet_init none 0 [])
        (sendPayloads (telnet_send [97, 255, 98]))).2 ≠ []) :=
  ⟨by decide, C1_data_roundtrip [97, 255, 98] (by decide)⟩

/-! ## Claim C3: incremental decoding -/

/-- Claim C3 counterexample: feeding 61 62 in one call emits one
coalesced DATA event, feeding it as two slices emits two DATA events,
so the event sequences are not identical as claimed. -/
theorem C3_counterexample :
    (telnet_recv (telnet_init none 0 []) [97, 98]).2 =
      [.evData [97, 98]] ∧
    (recvAll (telnet_init none 0 []) [[97], [98]]).2 =
      [.evData [97], .evData [98]] ∧
    (recvAll (telnet_init none 0 []) [[97], [98]]).2 ≠
      (telnet_recv (telnet_init none 0 []) [97, 98]).2 := by
  refine ⟨rfl, rfl, ?_⟩
  decide

/-- Claim C3 (amended): for any split of an input stream into slices,
feeding the slices to `telnet_recv` in order leaves the tracker in
exactly the state of feeding the whole stream in one call, and emits
the same event sequence up to the splitting of adjacent DATA events
(equal after exploding DATA events into single bytes).  Non-DATA
events (commands, negotiations, subnegotiations, warnings) are
literally identical and in identical order. -/
theorem C3_incremental (t : telnet_t) (parts : List (List Nat)) :
    (recvAll t parts).1 = (telnet_recv t (flattenL parts)).1 ∧
    explodeData (recvAll t parts).2 =
      explodeData (telnet_recv t (flattenL parts)).2 := by
  induction parts generalizing t with
  | nil => simp [recvAll, flattenL, telnet_recv, _process, processLoop]
  | cons l rest ih =>
    simp only [recvAll, flattenL]
    have hr := recv_stepRun t l
    have hrec := ih (telnet_recv t l).1
    have h2 := recv_stepRun (telnet_recv t l).1 (flattenL rest)
    have h3 := recv_stepRun t (l ++ flattenL rest)
    have happ := stepRun_append l (flattenL rest) t
    constructor
    · rw [hrec.1, h2.1, hr.1, h3.1, happ]
    · rw [explode_append, hr.2, hrec.2, h2.2, hr.1, h3.2, happ]

/-! ## Claim C6: buffer failure aborts the subnegotiation -/

/-- Claim C6: when appending to the subnegotiation buffer fails with
ENOMEM or EOVERFLOW in state SB_DATA (on a data byte) or SB_DATA_IAC
(on the escaped IAC byte), the in-progress subnegotiation is aborted:
the only event emitted for that byte is the non-fatal WARNING carried
by the failure (never a SUBNEGOTIATION event, never a fatal ERROR),
the decoder drops to state DATA, and processing continues on the
remaining input from there. -/
theorem C6_overflow_abort :
    (∀ (t : telnet_t) (b : Nat) (pending rest : List Nat),
      t.state = .sbData → b ≠ TELNET_IAC →
      ((_buffer_byte t b).2.1 = .enomem ∨
        (_buffer_byte t b).2.1 = .eoverflow) →
      processLoop t pending (b :: rest) =
        ((processLoop { (_buffer_byte t b).1 with state := .data } [] rest).1,
         .evWarning (_buffer_byte t b).2.1 ::
           (processLoop { (_buffer_byte t b).1 with state := .data } []
             rest).2)) ∧
    (∀ (t : telnet_t) (pending rest : List Nat),
      t.state = .sbDataIac →
      ((_buffer_byte t TELNET_IAC).2.1 = .enomem ∨
        (_buffer_byte t TELNET_IAC).2.1 = .eoverflow) →
      processLoop t pending (TELNET_IAC :: rest) =
        ((processLoop { (_buffer_byte t TELNET_IAC).1 with state := .data }
            [] rest).1,
         .evWarning (_buffer_byte t TELNET_IAC).2.1 ::
           (processLoop { (_buffer_byte t TELNET_IAC).1 with state := .data }
             [] rest).2)) := by
  constructor
  · intro t b pending rest hst hb herr
    apply sbdata_abort t b pending rest hst hb
    rcases herr with h | h <;> simp [h]
  · intro t pending rest hst herr
    apply sbdataiac_abort t pending rest hst
    rcases herr with h | h <;> simp [h]

/-- Witness for `C6_overflow_abort`: a tracker whose next allocation
fails, in each of the two buffering states. -/
theorem C6_witness :
    (({ telnet_init none 0 [false] with state := .sbData } :
        telnet_t).state = .sbData ∧
      (97 : Nat) ≠ TELNET_IAC ∧
      ((_buffer_byte { telnet_init none 0 [false] with state := .sbData }
          97).2.1 = .enomem ∨
        (_buffer_byte { telnet_init none 0 [false] with state := .sbData }
          97).2.1 = .eoverflow) ∧
      processLoop { telnet_init none 0 [false] with state := .sbData } []
          [97] =
        ((processLoop { (_buffer_byte { telnet_init none 0 [false] with
            state := .sbData } 97).1 with state := .data } [] []).1,
         .evWarning (_buffer_byte { telnet_init none 0 [false] with
            state := .sbData } 97).2.1 ::
           (processLoop { (_buffer_byte { telnet_init none 0 [false] with
             state := .sbData } 97).1 with state := .data } [] []).2)) ∧
    (({ telnet_init none 0 [false] with state := .sbDataIac } :
        telnet_t).state = .sbDataIac ∧
      ((_buffer_byte { telnet_init none 0 [false] with state := .sbDataIac }
          TELNET_IAC).2.1 = .enomem ∨
        (_buffer_byte { telnet_init none 0 [false] with state := .sbDataIac }
          TELNET_IAC).2.1 = .eoverflow) ∧
      processLoop { telnet_init none 0 [false] with state := .sbDataIac } []
          [TELNET_IAC] =
        ((processLoop { (_buffer_byte { telnet_init none 0 [false] with
            state := .sbDataIac } TELNET_IAC).1 with state := .data } []
            []).1,
         .evWarning (_buffer_byte { telnet_init none 0 [false] with
            state := .sbDataIac } TELNET_IAC).2.1 ::
           (processLoop { (_buffer_byte { telnet_init none 0 [false] with
             state := .sbDataIac } TELNET_IAC).1 with state := .data } []
             []).2)) :=
  ⟨⟨rfl, by decide, by decide,
    C6_overflow_abort.1 _ 97 [] [] rfl (by decide) (by decide)⟩,
   ⟨rfl, by decide,
    C6_overflow_abort.2 _ [] [] rfl (by decide)⟩⟩

/-! ## Claim C7: subnegotiation completion and buffer reset point -/

/-- Claim C7 counterexample: after the complete subnegotiation
FF FA 1F FF FF 00 50 FF F0 the buffer length is 3 (the payload is
still there), not zero — the length is not reset when SE is consumed. -/
theorem C7_counterexample :
    (telnet_recv (telnet_init none 0 [])
        [255, 250, 31, 255, 255, 0, 80, 255, 240]).1.buffer = [255, 0, 80] ∧
    (telnet_recv (telnet_init none 0 [])
        [255, 250, 31, 255, 255, 0, 80, 255, 240]).1.buffer.length ≠ 0 := by
  exact ⟨rfl, by decide⟩

/-- Claim C7 (amended): decoding the complete subnegotiation
FF FA 1F FF FF 00 50 FF F0 on a fresh tracker emits exactly
SUBNEGOTIATION(0x1F, FF 00 50) with the IAC-unescaped payload; the
buffer still holds the 3 payload bytes after SE (the length is not
cleared on SE) — the reset to length 0 happens when the next fresh SB
option byte is captured. -/
theorem C7_subneg_payload :
    ((telnet_recv (telnet_init none 0 [])
        [255, 250, 31, 255, 255, 0, 80, 255, 240]).2 =
      [.evSubnegotiation 31 [255, 0, 80] []] ∧
     (telnet_recv (telnet_init none 0 [])
        [255, 250, 31, 255, 255, 0, 80, 255, 240]).1.buffer.length = 3) ∧
    (∀ (t : telnet_t) (b : Nat) (pending rest : List Nat), t.state = .sb →
      processLoop t pending (b :: rest) =
        processLoop { t with sb_telopt := b, buffer := [], state := .sbData }
          [] rest) := by
  exact ⟨⟨rfl, rfl⟩, fun t b pending rest hst => sb_capture t b pending rest hst⟩

/-- Witness for `C7_subneg_payload` (the reset-on-SB conjunct has the
state hypothesis). -/
theorem C7_witness :
    (({ telnet_init none 0 [] with state := .sb } : telnet_t).state = .sb ∧
      processLoop { telnet_init none 0 [] with state := .sb } [] [31, 97] =
        processLoop { ({ telnet_init none 0 [] with state := .sb } :
            telnet_t) with
          sb_telopt := 31, buffer := [], state := .sbData } [] [97]) :=
  ⟨rfl, C7_subneg_payload.2 _ 31 [] [97] rfl⟩

/-! ## Claim C8: stray byte after IAC inside a subnegotiation -/

/-- Claim C8: a byte other than SE and IAC in state SB_DATA_IAC makes
the codec record a non-fatal EPROTOCOL warning, process (and thereby
abort) the still-open subnegotiation buffer, and then behave exactly
as if an IAC had been seen with that byte as the next input: the
remaining behaviour equals running the decoder from state IAC on the
same input, so the byte is reinterpreted as an IAC-command
continuation. -/
theorem C8_reinterpret_after_iac (t : telnet_t) (b : Nat)
    (pending rest : List Nat) (hst : t.state = .sbDataIac)
    (h1 : b ≠ TELNET_SE) (h2 : b ≠ TELNET_IAC) :
    processLoop t pending (b :: rest) =
      ((processLoop { t with state := .iac } [] (b :: rest)).1,
       .evWarning .eprotocol ::
         (_subnegotiate { t with state := .iac } ++
           (processLoop { t with state := .iac } [] (b :: rest)).2)) :=
  sbdataiac_other t b pending rest hst h1 h2

/-- Witness for `C8_reinterpret_after_iac` at a concrete tracker with
an open NAWS subnegotiation and stray byte 0x41. -/
theorem C8_witness :
    (({ telnet_init none 0 [] with
        state := .sbDataIac, sb_telopt := 31, buffer := [1, 2] } :
        telnet_t).state = .sbDataIac ∧
     (65 : Nat) ≠ TELNET_SE ∧ (65 : Nat) ≠ TELNET_IAC ∧
     processLoop { telnet_init none 0 [] with
         state := .sbDataIac, sb_telopt := 31, buffer := [1, 2] } []
         [65, 66] =
       ((processLoop { ({ telnet_init none 0 [] with
           state := .sbDataIac, sb_telopt := 31, buffer := [1, 2] } :
           telnet_t) with state := .iac } [] [65, 66]).1,
        .evWarning .eprotocol ::
          (_subnegotiate { ({ telnet_init none 0 [] with
              state := .sbDataIac, sb_telopt := 31, buffer := [1, 2] } :
              telnet_t) with state := .iac } ++
            (processLoop { ({ telnet_init none 0 [] with
               state := .sbDataIac, sb_telopt := 31, buffer := [1, 2] } :
               telnet_t) with state := .iac } [] [65, 66]).2))) :=
  ⟨rfl, by decide, by decide,
   C8_reinterpret_after_iac _ 65 [] [66] rfl (by decide) (by decide)⟩

/-! ## Field-preservation lemmas -/

/-- `_set_rfc1143` touches only the queue fields and the oracle. -/
theorem set_fields (t : telnet_t) (o u h : Nat) :
    (_set_rfc1143 t o u h).1.buffer = t.buffer ∧
    (_set_rfc1143 t o u h).1.buffer_size = t.buffer_size ∧
    (_set_rfc1143 t o u h).1.state = t.state ∧
    (_set_rfc1143 t o u h).1.telopts = t.telopts ∧
    (_set_rfc1143 t o u h).1.flags = t.flags ∧
    (_set_rfc1143 t o u h).1.sb_telopt = t.sb_telopt := by
  have ha := allocStep_fields t
  unfold _set_rfc1143
  split
  · simp
  · simp only []
    split <;> simp_all

/-- `_negotiate` touches only the queue fields and the oracle. -/
theorem negotiate_fields (t : telnet_t) (b : Nat) :
    (_negotiate t b).1.buffer = t.buffer ∧
    (_negotiate t b).1.buffer_size = t.buffer_size ∧
    (_negotiate t b).1.state = t.state ∧
    (_negotiate t b).1.telopts = t.telopts ∧
    (_negotiate t b).1.flags = t.flags ∧
    (_negotiate t b).1.sb_telopt = t.sb_telopt := by
  unfold _negotiate
  split
  · simp
  · split <;>
      rcases hh : (_get_rfc1143 t b).him with _ | _ | _ | _ | _ | _ | n <;>
      rcases hu : (_get_rfc1143 t b).us with _ | _ | _ | _ | _ | _ | m <;>
      simp only [hh, hu] <;>
      (try split) <;>
      simp [hh, hu, set_fields]

/-- `telnet_negotiate` touches only the queue fields and the oracle. -/
theorem telnet_negotiate_fields (t : telnet_t) (cmd b : Nat) :
    (telnet_negotiate t cmd b).1.buffer = t.buffer ∧
    (telnet_negotiate t cmd b).1.buffer_size = t.buffer_size ∧
    (telnet_negotiate t cmd b).1.state = t.state ∧
    (telnet_negotiate t cmd b).1.telopts = t.telopts ∧
    (telnet_negotiate t cmd b).1.flags = t.flags ∧
    (telnet_negotiate t cmd b).1.sb_telopt = t.sb_telopt := by
  unfold telnet_negotiate
  split
  · simp
  · by_cases h1 : cmd = TELNET_WILL
    · rcases hu : (_get_rfc1143 t b).us with _ | _ | _ | _ | _ | _ | m <;>
        simp [h1, hu, set_fields, TELNET_WILL, TELNET_WONT, TELNET_DO,
          TELNET_DONT]
    · by_cases h2 : cmd = TELNET_WONT
      · rcases hu : (_get_rfc1143 t b).us with _ | _ | _ | _ | _ | _ | m <;>
          simp [h1, h2, hu, set_fields, TELNET_WILL, TELNET_WONT, TELNET_DO,
            TELNET_DONT]
      · by_cases h3 : cmd = TELNET_DO
        · rcases hh : (_get_rfc1143 t b).him with _ | _ | _ | _ | _ | _ | n <;>
            simp [h1, h2, h3, hh, set_fields, TELNET_WILL, TELNET_WONT,
              TELNET_DO, TELNET_DONT]
        · by_cases h4 : cmd = TELNET_DONT
          · rcases hh : (_get_rfc1143 t b).him with _ | _ | _ | _ | _ | _ | n <;>
              simp [h1, h2, h3, h4, hh, set_fields, TELNET_WILL, TELNET_WONT,
                TELNET_DO, TELNET_DONT]
          · simp [h1, h2, h3, h4]

/-! ## Buffer invariant (claim C5) -/

/-- `iacStep` touches only the decoder state. -/
theorem iacStep_fields (t : telnet_t) (b : Nat) :
    (iacStep t b).1.buffer = t.buffer ∧
    (iacStep t b).1.buffer_size = t.buffer_size ∧
    (iacStep t b).1.q = t.q ∧
    (iacStep t b).1.q_size = t.q_size ∧
    (iacStep t b).1.telopts = t.telopts ∧
    (iacStep t b).1.flags = t.flags ∧
    (iacStep t b).1.allocOk = t.allocOk ∧
    (iacStep t b).1.sb_telopt = t.sb_telopt := by
  unfold iacStep
  (repeat' split) <;> simp

/-- `_buffer_byte` preserves the buffer invariant. -/
theorem bb_BufferInv (t : telnet_t) (b : Nat) (h : BufferInv t) :
    BufferInv (_buffer_byte t b).1 := by
  obtain ⟨hmem, hlen⟩ := h
  have ha := allocStep_fields t
  rcases bb_cases t b with ⟨hne, he⟩ | ⟨_, _, he⟩ | ⟨i, hl, hfs, hi, _, he⟩ |
    ⟨i, _, _, _, _, he⟩ <;> rw [he]
  · show BufferInv { t with buffer := t.buffer ++ [b] }
    refine ⟨hmem, ?_⟩
    simp only [List.length_append, List.length_cons, List.length_nil]
    omega
  · exact ⟨hmem, hlen⟩
  · simp only [_buffer_sizes, List.mem_cons, List.not_mem_nil, or_false]
      at hmem
    simp only [_buffer_sizes, List.length_cons, List.length_nil] at hi
    rcases hmem with hsz | hsz | hsz | hsz | hsz
    · rw [hsz] at hfs hl
      simp [findSize, _buffer_sizes] at hfs
      subst hfs
      constructor
      · show _buffer_sizes.getD (0 + 1) 0 ∈ _buffer_sizes
        decide
      · show (t.buffer ++ [b]).length ≤ _buffer_sizes.getD (0 + 1) 0
        have hg : _buffer_sizes.getD (0 + 1) 0 = 512 := by decide
        rw [hg]
        simp only [List.length_append, List.length_cons, List.length_nil]
        omega
    · rw [hsz] at hfs hl
      simp [findSize, _buffer_sizes] at hfs
      subst hfs
      constructor
      · show _buffer_sizes.getD (1 + 1) 0 ∈ _buffer_sizes
        decide
      · show (t.buffer ++ [b]).length ≤ _buffer_sizes.getD (1 + 1) 0
        have hg : _buffer_sizes.getD (1 + 1) 0 = 2048 := by decide
        rw [hg]
        simp only [List.length_append, List.length_cons, List.length_nil]
        omega
    · rw [hsz] at hfs hl
      simp [findSize, _buffer_sizes] at hfs
      subst hfs
      constructor
      · show _buffer_sizes.getD (2 + 1) 0 ∈ _buffer_sizes
        decide
      · show (t.buffer ++ [b]).length ≤ _buffer_sizes.getD (2 + 1) 0
        have hg : _buffer_sizes.getD (2 + 1) 0 = 8192 := by decide
        rw [hg]
        simp only [List.length_append, List.length_cons, List.length_nil]
        omega
    · rw [hsz] at hfs hl
      simp [findSize, _buffer_sizes] at hfs
      subst hfs
      constructor
      · show _buffer_sizes.getD (3 + 1) 0 ∈ _buffer_sizes
        decide
      · show (t.buffer ++ [b]).length ≤ _buffer_sizes.getD (3 + 1) 0
        have hg : _buffer_sizes.getD (3 + 1) 0 = 16384 := by decide
        rw [hg]
        simp only [List.length_append, List.length_cons, List.length_nil]
        omega
    · rw [hsz] at hfs hl
      simp [findSize, _buffer_sizes] at hfs
      omega
  · exact ⟨by rw [ha.2.1]; exact hmem, by rw [ha.1, ha.2.1]; exact hlen⟩

/-- `stepB` preserves the buffer invariant. -/
theorem stepB_BufferInv (t : telnet_t) (b : Nat) (h : BufferInv t) :
    BufferInv (stepB t b).1 := by
  have hn := negotiate_fields t b
  have hnegInv : BufferInv { (_negotiate t b).1 with state := .data } := by
    constructor
    · show (_negotiate t b).1.buffer_size ∈ _buffer_sizes
      rw [hn.2.1]; exact h.1
    · show (_negotiate t b).1.buffer.length ≤ (_negotiate t b).1.buffer_size
      rw [hn.1, hn.2.1]; exact h.2
  unfold stepB
  split
  · split
    · exact ⟨h.1, h.2⟩
    · exact h
  · unfold iacStep
    (repeat' split) <;> exact ⟨h.1, h.2⟩
  · exact hnegInv
  · exact hnegInv
  · exact hnegInv
  · exact hnegInv
  · exact ⟨h.1, by simp⟩
  · by_cases hbi : b = TELNET_IAC
    · simp only [hbi, if_pos rfl]
      exact ⟨h.1, h.2⟩
    · have hb := bb_BufferInv t b h
      by_cases hok : (_buffer_byte t b).2.1 = .eok <;>
        simp only [hbi, if_neg hbi, hok, if_pos, if_neg, if_true,
          if_false] <;>
        exact ⟨hb.1, hb.2⟩
  · by_cases hse : b = TELNET_SE
    · subst hse
      rw [if_pos rfl]
      exact ⟨h.1, h.2⟩
    · by_cases hbi : b = TELNET_IAC
      · subst hbi
        rw [if_neg hse, if_pos rfl]
        have hb := bb_BufferInv t TELNET_IAC h
        show BufferInv (if (_buffer_byte t TELNET_IAC).2.1 = .eok then
            ({ (_buffer_byte t TELNET_IAC).1 with state := .sbData },
              (_buffer_byte t TELNET_IAC).2.2)
          else
            ({ (_buffer_byte t TELNET_IAC).1 with state := .data },
              (_buffer_byte t TELNET_IAC).2.2)).1
        split
        · exact ⟨hb.1, hb.2⟩
        · exact ⟨hb.1, hb.2⟩
      · rw [if_neg hse, if_neg hbi]
        show BufferInv (iacStep { t with state := .iac } b).1
        have hi := iacStep_fields { t with state := .iac } b
        exact ⟨by rw [hi.2.1]; exact h.1, by rw [hi.1, hi.2.1]; exact h.2⟩

/-- `stepRun` preserves the buffer invariant. -/
theorem stepRun_BufferInv (bs : List Nat) : ∀ t : telnet_t,
    BufferInv t → BufferInv (stepRun t bs).1 := by
  induction bs with
  | nil => intro t h; exact h
  | cons b rest ih =>
    intro t h
    simp only [stepRun]
    exact ih _ (stepB_BufferInv t b h)

/-- Every reachable tracker satisfies the buffer invariant. -/
theorem reachable_BufferInv (t : telnet_t) (h : Reachable t) :
    BufferInv t := by
  induction h with
  | init telopts flags heap => exact ⟨by simp [telnet_init, _buffer_sizes],
      by simp [telnet_init]⟩
  | recv t bs _ ih =>
    rw [(recv_stepRun t bs).1]
    exact stepRun_BufferInv bs t ih
  | negotiate t cmd telopt _ ih =>
    have hf := telnet_negotiate_fields t cmd telopt
    exact ⟨by rw [hf.2.1]; exact ih.1, by rw [hf.1, hf.2.1]; exact ih.2⟩

/-- Claim C5: on every reachable tracker the subnegotiation buffer
never exceeds 16384 bytes and its capacity is always a ladder value;
any single append leaves the capacity unchanged or moves it exactly
one rung up the ladder; and an append attempted when the buffer is
full at 16384 fails with EOVERFLOW (leaving the tracker unchanged and
emitting the overflow warning). -/
theorem C5_buffer_bound :
    (∀ t : telnet_t, Reachable t →
      t.buffer.length ≤ 16384 ∧ t.buffer_size ∈ _buffer_sizes) ∧
    (∀ (t : telnet_t) (b : Nat),
      (_buffer_byte t b).1.buffer_size = t.buffer_size ∨
      ∃ i, findSize _buffer_sizes t.buffer_size = some i ∧
        i + 1 < _buffer_sizes.length ∧
        (_buffer_byte t b).1.buffer_size = _buffer_sizes.getD (i + 1) 0) ∧
    (∀ (t : telnet_t) (b : Nat), t.buffer.length = 16384 →
      t.buffer_size = 16384 →
      _buffer_byte t b = (t, .eoverflow, [.evWarning .eoverflow])) := by
  refine ⟨?_, ?_, ?_⟩
  · intro t h
    have hb := reachable_BufferInv t h
    refine ⟨?_, hb.1⟩
    have hmem := hb.1
    simp only [_buffer_sizes, List.mem_cons, List.not_mem_nil, or_false]
      at hmem
    have hlen := hb.2
    rcases hmem with hsz | hsz | hsz | hsz | hsz <;> omega
  · intro t b
    have ha := allocStep_fields t
    rcases bb_cases t b with ⟨_, he⟩ | ⟨_, _, he⟩ | ⟨i, _, hfs, hi, _, he⟩ |
      ⟨i, _, _, _, _, he⟩ <;> rw [he]
    · left; rfl
    · left; rfl
    · right
      exact ⟨i, hfs, by omega, rfl⟩
    · left; exact ha.2.1
  · intro t b h1 h2
    unfold _buffer_byte
    rw [h1, h2]
    simp [findSize, _buffer_sizes, _error]

/-- Witness for `C5_buffer_bound` at the freshly initialised tracker
and at a tracker whose buffer is full at the cap. -/
theorem C5_witness :
    Reachable (telnet_init none 0 []) ∧
    ((telnet_init none 0 []).buffer.length ≤ 16384 ∧
      (telnet_init none 0 []).buffer_size ∈ _buffer_sizes) ∧
    (({ telnet_init none 0 [] with
        buffer := List.replicate 16384 0, buffer_size := 16384 } :
        telnet_t).buffer.length = 16384 ∧
     _buffer_byte { telnet_init none 0 [] with
        buffer := List.replicate 16384 0, buffer_size := 16384 } 97 =
       ({ telnet_init none 0 [] with
          buffer := List.replicate 16384 0, buffer_size := 16384 },
        .eoverflow, [.evWarning .eoverflow])) :=
  ⟨Reachable.init none 0 [],
   C5_buffer_bound.1 (telnet_init none 0 []) (Reachable.init none 0 []),
   show (List.replicate 16384 (0 : Nat)).length = 16384 from
     List.length_replicate 16384 0,
   C5_buffer_bound.2.2 _ 97
     (show (List.replicate 16384 (0 : Nat)).length = 16384 from
       List.length_replicate 16384 0) rfl⟩

/-! ## Successful buffering and payload fill (claim C2) -/

/-- An append with a working allocator and room below the cap
succeeds: the byte lands at the end of the buffer and the capacity
stays on the ladder, large enough. -/
theorem bb_success (t : telnet_t) (b : Nat)
    (hmem : t.buffer_size ∈ _buffer_sizes)
    (hlen : t.buffer.length ≤ t.buffer_size) (hal : t.allocOk = [])
    (hlt : t.buffer.length < 16384) :
    ∃ sz, _buffer_byte t b =
      ({ t with buffer := t.buffer ++ [b], buffer_size := sz }, .eok,
        ([] : List telnet_event_t)) ∧
      t.buffer.length + 1 ≤ sz ∧ sz ∈ _buffer_sizes := by
  have hA : allocStep t = (t, true) := by
    unfold allocStep
    rw [hal]
  by_cases hfull : t.buffer.length = t.buffer_size
  · simp only [_buffer_sizes, List.mem_cons, List.not_mem_nil, or_false]
      at hmem
    rcases hmem with hsz | hsz | hsz | hsz | hsz
    · refine ⟨512, ?_, by omega, by decide⟩
      unfold _buffer_byte
      rw [if_pos hfull, hsz]
      simp [findSize, _buffer_sizes, hA, List.getD]
    · refine ⟨2048, ?_, by omega, by decide⟩
      unfold _buffer_byte
      rw [if_pos hfull, hsz]
      simp [findSize, _buffer_sizes, hA, List.getD]
    · refine ⟨8192, ?_, by omega, by decide⟩
      unfold _buffer_byte
      rw [if_pos hfull, hsz]
      simp [findSize, _buffer_sizes, hA, List.getD]
    · refine ⟨16384, ?_, by omega, by decide⟩
      unfold _buffer_byte
      rw [if_pos hfull, hsz]
      simp [findSize, _buffer_sizes, hA, List.getD]
    · omega
  · refine ⟨t.buffer_size, ?_, by omega, hmem⟩
    unfold _buffer_byte
    rw [if_neg hfull]

/-- An append to a buffer full at the 16384 cap fails with EOVERFLOW,
changes nothing, and emits the overflow warning. -/
theorem bb_full (t : telnet_t) (b : Nat) (h1 : t.buffer.length = 16384)
    (h2 : t.buffer_size = 16384) :
    _buffer_byte t b = (t, .eoverflow, [.evWarning .eoverflow]) := by
  unfold _buffer_byte
  rw [h1, h2]
  simp [findSize, _buffer_sizes, _error]

/-- IAC in state SB_DATA just moves to SB_DATA_IAC. -/
theorem sbdata_iac_step (t : telnet_t) (pending rest : List Nat)
    (hst : t.state = .sbData) :
    processLoop t pending (TELNET_IAC :: rest) =
      processLoop { t with state := .sbDataIac } [] rest := by
  simp [processLoop, stepB, hst]

/-- A successfully buffered byte in state SB_DATA emits nothing and
continues. -/
theorem sbdata_plain_step (t : telnet_t) (b : Nat) (pending rest : List Nat)
    (hst : t.state = .sbData) (hb : b ≠ TELNET_IAC)
    (hok : (_buffer_byte t b).2.1 = .eok) :
    processLoop t pending (b :: rest) =
      processLoop (_buffer_byte t b).1 [] rest := by
  have h0 := bb_ok t b hok
  simp [processLoop, stepB, hst, hb, hok, h0.1]

/-- A successfully buffered escaped IAC in state SB_DATA_IAC emits
nothing and returns to SB_DATA. -/
theorem sbdataiac_iac_step (t : telnet_t) (pending rest : List Nat)
    (hst : t.state = .sbDataIac)
    (hok : (_buffer_byte t TELNET_IAC).2.1 = .eok) :
    processLoop t pending (TELNET_IAC :: rest) =
      processLoop { (_buffer_byte t TELNET_IAC).1 with state := .sbData }
        [] rest := by
  have h0 := bb_ok t TELNET_IAC hok
  simp only [TELNET_IAC] at hok h0 ⊢
  simp [processLoop, stepB, hst, hok, h0.1, TELNET_SE, TELNET_IAC]

/-- Decoding the IAC-escape of a payload in state SB_DATA with a
working allocator and room for the whole payload: every byte is
buffered (escaped IACs collapsing to single 0xFF bytes), no events are
emitted, and the decoder proceeds to the rest of the input still in
SB_DATA with the payload appended to the buffer. -/
theorem fill_payload (payload : List Nat) : ∀ (t : telnet_t)
    (more : List Nat), t.state = .sbData → t.buffer_size ∈ _buffer_sizes →
    t.buffer.length ≤ t.buffer_size → t.allocOk = [] →
    t.buffer.length + payload.length ≤ 16384 →
    ∃ sz, processLoop t [] (iacEscape payload ++ more) =
        processLoop { t with
          buffer := t.buffer ++ payload, buffer_size := sz } [] more ∧
      sz ∈ _buffer_sizes ∧ (t.buffer ++ payload).length ≤ sz ∧
      ({ t with
        buffer := t.buffer ++ payload,
        buffer_size := sz } : telnet_t).allocOk = [] := by
  induction payload with
  | nil =>
    intro t more hst hmem hlen hal hbound
    refine ⟨t.buffer_size, ?_, hmem, by simpa using hlen, hal⟩
    have ht : ({ t with
        buffer := t.buffer ++ [],
        buffer_size := t.buffer_size } : telnet_t) = t := by
      cases t
      simp
    rw [ht]
    simp [iacEscape]
  | cons b rest ih =>
    intro t more hst hmem hlen hal hbound
    obtain ⟨tel, fl, q, qs, buf, bufsz, st, sbt, al⟩ := t
    simp only at hst hmem hlen hal hbound
    subst hst
    subst hal
    simp only [List.length_cons] at hbound
    by_cases hb : b = TELNET_IAC
    · subst hb
      rw [show iacEscape (TELNET_IAC :: rest) ++ more =
          TELNET_IAC :: TELNET_IAC :: (iacEscape rest ++ more) by
        simp [iacEscape]]
      obtain ⟨sz1, hbb, hsz1, hmem1⟩ :=
        bb_success ⟨tel, fl, q, qs, buf, bufsz, .sbDataIac, sbt, []⟩
          TELNET_IAC hmem hlen rfl (show buf.length < 16384 by omega)
      have hok : (_buffer_byte ⟨tel, fl, q, qs, buf, bufsz, .sbDataIac,
          sbt, []⟩ TELNET_IAC).2.1 = .eok := by rw [hbb]
      have hs1 : processLoop ⟨tel, fl, q, qs, buf, bufsz, .sbData, sbt, []⟩
          [] (TELNET_IAC :: TELNET_IAC :: (iacEscape rest ++ more)) =
          processLoop ⟨tel, fl, q, qs, buf, bufsz, .sbDataIac, sbt, []⟩
            [] (TELNET_IAC :: (iacEscape rest ++ more)) :=
        sbdata_iac_step _ _ _ rfl
      have hs2 : processLoop ⟨tel, fl, q, qs, buf, bufsz, .sbDataIac, sbt,
          []⟩ [] (TELNET_IAC :: (iacEscape rest ++ more)) =
          processLoop ⟨tel, fl, q, qs, buf ++ [TELNET_IAC], sz1, .sbData,
            sbt, []⟩ [] (iacEscape rest ++ more) := by
        rw [sbdataiac_iac_step _ _ _ rfl hok, hbb]
      rw [hs1, hs2]
      have hsz1' : buf.length + 1 ≤ sz1 := hsz1
      obtain ⟨sz, hrest, hmem2, hlen2, hal2⟩ :=
        ih ⟨tel, fl, q, qs, buf ++ [TELNET_IAC], sz1, .sbData, sbt, []⟩
          more rfl hmem1
          (show (buf ++ [TELNET_IAC]).length ≤ sz1 by
            simp only [List.length_append, List.length_cons,
              List.length_nil]; omega) rfl
          (show (buf ++ [TELNET_IAC]).length + rest.length ≤ 16384 by
            simp only [List.length_append, List.length_cons,
              List.length_nil]; omega)
      refine ⟨sz, ?_, hmem2, ?_, rfl⟩
      · rw [hrest]
        simp only [List.append_assoc, List.cons_append, List.nil_append]
      · simp only [List.length_append, List.length_cons, List.length_nil]
          at hlen2 ⊢
        omega
    · rw [show iacEscape (b :: rest) ++ more =
          b :: (iacEscape rest ++ more) by simp [iacEscape, hb]]
      obtain ⟨sz1, hbb, hsz1, hmem1⟩ :=
        bb_success ⟨tel, fl, q, qs, buf, bufsz, .sbData, sbt, []⟩
          b hmem hlen rfl (show buf.length < 16384 by omega)
      have hok : (_buffer_byte ⟨tel, fl, q, qs, buf, bufsz, .sbData,
          sbt, []⟩ b).2.1 = .eok := by rw [hbb]
      have hs : processLoop ⟨tel, fl, q, qs, buf, bufsz, .sbData, sbt, []⟩
          [] (b :: (iacEscape rest ++ more)) =
          processLoop ⟨tel, fl, q, qs, buf ++ [b], sz1, .sbData, sbt, []⟩
            [] (iacEscape rest ++ more) := by
        rw [sbdata_plain_step _ _ _ _ rfl hb hok, hbb]
      rw [hs]
      have hsz1' : buf.length + 1 ≤ sz1 := hsz1
      obtain ⟨sz, hrest, hmem2, hlen2, hal2⟩ :=
        ih ⟨tel, fl, q, qs, buf ++ [b], sz1, .sbData, sbt, []⟩
          more rfl hmem1
          (show (buf ++ [b]).length ≤ sz1 by
            simp only [List.length_append, List.length_cons,
              List.length_nil]; omega) rfl
          (show (buf ++ [b]).length + rest.length ≤ 16384 by
            simp only [List.length_append, List.length_cons,
              List.length_nil]; omega)
      refine ⟨sz, ?_, hmem2, ?_, rfl⟩
      · rw [hrest]
        simp only [List.append_assoc, List.cons_append, List.nil_append]
      · simp only [List.length_append, List.length_cons, List.length_nil]
          at hlen2 ⊢
        omega

/-- SE after IAC inside a subnegotiation: return to DATA and process
the buffer through the subnegotiation parser. -/
theorem sbdataiac_se (t : telnet_t) (pending rest : List Nat)
    (hst : t.state = .sbDataIac) :
    processLoop t pending (TELNET_SE :: rest) =
      ((processLoop { t with state := .data } [] rest).1,
       _subnegotiate { t with state := .data } ++
         (processLoop { t with state := .data } [] rest).2) := by
  simp [processLoop, stepB, hst, TELNET_SE]

/-- `_subnegotiate` always emits exactly one SUBNEGOTIATION event,
carrying the captured option and the raw buffer. -/
theorem subEvents_subnegotiate (t : telnet_t) :
    ∃ argv, subEvents (_subnegotiate t) =
      [.evSubnegotiation t.sb_telopt t.buffer argv] := by
  unfold _subnegotiate
  split
  · split
    · exact ⟨[], by simp [subEvents, _error]⟩
    · exact ⟨zmpSplit t.buffer, by simp [subEvents]⟩
  · split
    · split
      · exact ⟨[], by simp [subEvents]⟩
      · split
        · exact ⟨[], by simp [subEvents, _error]⟩
        · exact ⟨sbSplit t.buffer, by simp [subEvents]⟩
    · exact ⟨[], by simp [subEvents]⟩

/-- The IAC SB opt header on a fresh tracker: no events, and the
decoder stands in SB_DATA with the option captured and the buffer
reset. -/
theorem recv_sb_header (telopts : Option (List telnet_telopt_t))
    (flags opt : Nat) (X : List Nat) :
    telnet_recv (telnet_init telopts flags [])
      (TELNET_IAC :: TELNET_SB :: opt :: X) =
      processLoop ⟨telopts, flags, [], 0, [], 0, .sbData, opt, []⟩ [] X := by
  simp [telnet_recv, _process, processLoop, stepB, iacStep, telnet_init,
    TELNET_IAC, TELNET_SB, TELNET_SE, TELNET_WILL, TELNET_WONT, TELNET_DO,
    TELNET_DONT]

/-- Decoding a complete, correctly escaped subnegotiation whose
payload fits in the buffer emits exactly one SUBNEGOTIATION event,
for the captured option, whose buffer is the unescaped payload. -/
theorem decode_subneg (telopts : Option (List telnet_telopt_t))
    (flags opt : Nat) (payload : List Nat) (hlen : payload.length ≤ 16384) :
    ∃ argv, subEvents (telnet_recv (telnet_init telopts flags [])
      ([TELNET_IAC, TELNET_SB, opt] ++ iacEscape payload ++
        [TELNET_IAC, TELNET_SE])).2 =
      [.evSubnegotiation opt payload argv] := by
  rw [show [TELNET_IAC, TELNET_SB, opt] ++ iacEscape payload ++
      [TELNET_IAC, TELNET_SE] = TELNET_IAC :: TELNET_SB :: opt ::
      (iacEscape payload ++ [TELNET_IAC, TELNET_SE]) by simp]
  rw [recv_sb_header]
  obtain ⟨sz, heq, hmem, hlen2, hal2⟩ :=
    fill_payload payload ⟨telopts, flags, [], 0, [], 0, .sbData, opt, []⟩
      [TELNET_IAC, TELNET_SE] rfl
      (show (0 : Nat) ∈ _buffer_sizes by decide)
      (show ([] : List Nat).length ≤ 0 by simp) rfl
      (show ([] : List Nat).length + payload.length ≤ 16384 by
        simpa using hlen)
  rw [heq]
  rw [sbdata_iac_step _ _ _ rfl]
  rw [sbdataiac_se _ _ _ rfl]
  have hnil : (processLoop { ({ (⟨telopts, flags, [], 0, [] ++ payload, sz,
      .sbData, opt, []⟩ : telnet_t) with state := .sbDataIac }) with
      state := .data } [] []).2 = [] := rfl
  rw [hnil, List.append_nil]
  exact subEvents_subnegotiate _

/-- Claim C2 (part c amended with the buffer-cap and allocation
provisos): (a) IAC IAC in state DATA emits a single-byte DATA event
carrying 0xFF; (b) IAC X for X outside {SB, SE, WILL, WONT, DO, DONT,
IAC} emits a COMMAND event carrying X; (c) decoding IAC SB opt
<payload, IACs doubled> IAC SE on a fresh tracker with a working
allocator emits exactly one SUBNEGOTIATION event for opt whose buffer
is the unescaped payload, provided the unescaped payload is at most
16384 bytes. -/
theorem C2_command_framing :
    (∀ t : telnet_t, t.state = .data →
      _process t [TELNET_IAC, TELNET_IAC] = (t, [.evData [TELNET_IAC]])) ∧
    (∀ (t : telnet_t) (X : Nat), t.state = .data → X ≠ TELNET_SB →
      X ≠ TELNET_SE → X ≠ TELNET_WILL → X ≠ TELNET_WONT → X ≠ TELNET_DO →
      X ≠ TELNET_DONT → X ≠ TELNET_IAC →
      _process t [TELNET_IAC, X] = (t, [.evIac X])) ∧
    (∀ (telopts : Option (List telnet_telopt_t)) (flags opt : Nat)
      (payload : List Nat), payload.length ≤ 16384 →
      ∃ argv, subEvents (telnet_recv (telnet_init telopts flags [])
        ([TELNET_IAC, TELNET_SB, opt] ++ iacEscape payload ++
          [TELNET_IAC, TELNET_SE])).2 =
        [.evSubnegotiation opt payload argv]) := by
  refine ⟨?_, ?_, ?_⟩
  · intro t h
    exact iac_iac_data t h
  · intro t X h hsb hse hw h2 h3 h4 hi
    exact iac_other_data t X h hsb hw h2 h3 h4 hi
  · intro telopts flags opt payload hlen
    exact decode_subneg telopts flags opt payload hlen

/-- The IAC-escape of a run of 0x61 bytes is itself. -/
theorem iacEscape_replicate (n : Nat) :
    iacEscape (List.replicate n 97) = List.replicate n 97 := by
  induction n with
  | zero => simp [iacEscape]
  | succ n ih => simp [List.replicate_succ, iacEscape, ih, TELNET_IAC]

set_option maxRecDepth 8192 in
/-- Claim C2 counterexample: a 16385-byte payload overflows the
subnegotiation buffer, so the complete and correctly escaped
subnegotiation emits NO SUBNEGOTIATION event at all (only the
EOVERFLOW warning, after which the trailing IAC SE is read as a
command): part (c) of the claim fails without the 16384-byte proviso. -/
theorem C2_counterexample :
    subEvents (telnet_recv (telnet_init none 0 [])
      ([TELNET_IAC, TELNET_SB, 31] ++
        iacEscape (List.replicate 16385 97) ++
        [TELNET_IAC, TELNET_SE])).2 = [] := by
  rw [iacEscape_replicate]
  rw [show (List.replicate 16385 97 : List Nat) =
      List.replicate 16384 97 ++ [97] from List.replicate_succ' 16384 97]
  rw [show [TELNET_IAC, TELNET_SB, 31] ++
      (List.replicate 16384 97 ++ [97]) ++ [TELNET_IAC, TELNET_SE] =
      TELNET_IAC :: TELNET_SB :: 31 ::
      (List.replicate 16384 97 ++ [97, TELNET_IAC, TELNET_SE]) by
    simp only [List.cons_append, List.nil_append, List.append_assoc,
      List.singleton_append]]
  rw [show (31 : Nat) = (31 : Nat) from rfl]
  rw [recv_sb_header none 0 31]
  rw [show (List.replicate 16384 97 ++ [97, TELNET_IAC, TELNET_SE] :
      List Nat) = iacEscape (List.replicate 16384 97) ++
      [97, TELNET_IAC, TELNET_SE] by rw [iacEscape_replicate]]
  have h1 : ((⟨none, 0, [], 0, [], 0, .sbData, 31, []⟩ :
      telnet_t)).state = .sbData := rfl
  have h2 : ((⟨none, 0, [], 0, [], 0, .sbData, 31, []⟩ :
      telnet_t)).buffer_size ∈ _buffer_sizes := by decide
  have h3 : ((⟨none, 0, [], 0, [], 0, .sbData, 31, []⟩ :
      telnet_t)).buffer.length ≤ ((⟨none, 0, [], 0, [], 0, .sbData, 31, []⟩ :
      telnet_t)).buffer_size := by simp
  have h4 : ((⟨none, 0, [], 0, [], 0, .sbData, 31, []⟩ :
      telnet_t)).allocOk = [] := rfl
  have h5 : ((⟨none, 0, [], 0, [], 0, .sbData, 31, []⟩ :
      telnet_t)).buffer.length +
      (List.replicate 16384 (97 : Nat)).length ≤ 16384 := by
    simp only [List.length_replicate]
    simp
  obtain ⟨sz, heq, hmem, hlen2, hal2⟩ :=
    fill_payload (List.replicate 16384 97)
      ⟨none, 0, [], 0, [], 0, .sbData, 31, []⟩ [97, TELNET_IAC, TELNET_SE]
      h1 h2 h3 h4 h5
  rw [heq]
  have hszv : sz = 16384 := by
    simp only [List.nil_append, List.length_replicate] at hlen2
    simp only [_buffer_sizes, List.mem_cons, List.not_mem_nil, or_false]
      at hmem
    rcases hmem with h | h | h | h | h <;> omega
  subst hszv
  have hbuf : (⟨none, 0, [], 0, [] ++ List.replicate 16384 97, 16384,
      .sbData, 31, []⟩ : telnet_t).buffer.length = 16384 := by
    simp only [List.nil_append, List.length_replicate]
  have hov := bb_full ⟨none, 0, [], 0, [] ++ List.replicate 16384 97, 16384,
      .sbData, 31, []⟩ 97 hbuf rfl
  rw [sbdata_abort _ 97 [] [TELNET_IAC, TELNET_SE] rfl (by decide)
    (by rw [hov]; decide)]
  rw [hov]
  have htail := iac_other_data { (⟨none, 0, [], 0,
      [] ++ List.replicate 16384 97, 16384, .sbData, 31, []⟩ : telnet_t)
      with state := .data } TELNET_SE rfl (by decide) (by decide)
      (by decide) (by decide) (by decide) (by decide)
  simp only [_process] at htail
  rw [htail]
  simp [subEvents]

/-- Witness for `C2_command_framing` at concrete inputs. -/
theorem C2_witness :
    ((telnet_init none 0 []).state = .data ∧
      _process (telnet_init none 0 []) [TELNET_IAC, TELNET_IAC] =
        (telnet_init none 0 [], [.evData [TELNET_IAC]])) ∧
    ((telnet_init none 0 []).state = .data ∧ (244 : Nat) ≠ TELNET_SB ∧
      (244 : Nat) ≠ TELNET_SE ∧ (244 : Nat) ≠ TELNET_WILL ∧
      (244 : Nat) ≠ TELNET_WONT ∧ (244 : Nat) ≠ TELNET_DO ∧
      (244 : Nat) ≠ TELNET_DONT ∧ (244 : Nat) ≠ TELNET_IAC ∧
      _process (telnet_init none 0 []) [TELNET_IAC, 244] =
        (telnet_init none 0 [], [.evIac 244])) ∧
    (([255, 0, 80] : List Nat).length ≤ 16384 ∧
      ∃ argv, subEvents (telnet_recv (telnet_init none 0 [])
        ([TELNET_IAC, TELNET_SB, 31] ++ iacEscape [255, 0, 80] ++
          [TELNET_IAC, TELNET_SE])).2 =
        [.evSubnegotiation 31 [255, 0, 80] argv]) :=
  ⟨⟨rfl, C2_command_framing.1 (telnet_init none 0 []) rfl⟩,
   ⟨rfl, by decide, by decide, by decide, by decide, by decide, by decide,
    by decide,
    C2_command_framing.2.1 (telnet_init none 0 []) 244 rfl (by decide)
      (by decide) (by decide) (by decide) (by decide) (by decide)
      (by decide)⟩,
   ⟨by decide,
    C2_command_framing.2.2 none 0 31 [255, 0, 80] (by decide)⟩⟩

/-! ## Claim C10: the type-and-data argument splitter -/

/-- The first byte `dropWhile` keeps falsifies the predicate. -/
theorem dropWhile_head_false (p : Nat → Bool) (l : List Nat) (d : Nat)
    (tl : List Nat) (h : l.dropWhile p = d :: tl) : p d = false := by
  induction l with
  | nil => simp [List.dropWhile] at h
  | cons a l ih =>
    by_cases hpa : p a
    · rw [List.dropWhile_cons_of_pos hpa] at h
      exact ih h
    · rw [List.dropWhile_cons_of_neg (by simpa using hpa)] at h
      cases h
      simpa using hpa

/-- Structural description of `sbSplit` under the preconditions the
parser checks (non-empty buffer whose first byte is in 0..3): the
number of arguments equals the number of buffer bytes in 0..3, and
every argument consists of its introducing marker byte (in 0..3)
followed by the bytes greater than 3 that extend it. -/
theorem sbSplit_spec (bs : List Nat) : bs ≠ [] → bs.headD 0 ≤ 3 →
    (sbSplit bs).length = bs.countP (fun b => b ≤ 3) ∧
    (∀ arg ∈ sbSplit bs, ∃ m tl, arg = m :: tl ∧ m ≤ 3 ∧
      ∀ x ∈ tl, 3 < x) := by
  induction bs using sbSplit.induct with
  | case1 =>
    intro h
    exact absurd rfl h
  | case2 m rest ih =>
    intro _ hhead
    simp only [List.headD_cons] at hhead
    have hsplit : sbSplit (m :: rest) =
        (m :: rest.takeWhile (fun x => 3 < x)) ::
          sbSplit (rest.dropWhile (fun x => 3 < x)) := by
      rw [sbSplit]
    have htkmem : ∀ x ∈ rest.takeWhile (fun x => 3 < x), 3 < x := by
      intro x hx
      simpa using List.mem_takeWhile_imp hx
    have htkcount : (rest.takeWhile (fun x => 3 < x)).countP
        (fun b => b ≤ 3) = 0 := by
      rw [List.countP_eq_zero]
      intro a ha
      have h3 := htkmem a ha
      simp only [decide_eq_true_eq]
      omega
    have hrest : rest.takeWhile (fun x => 3 < x) ++
        rest.dropWhile (fun x => 3 < x) = rest :=
      List.takeWhile_append_dropWhile _ rest
    cases hdw : rest.dropWhile (fun x => 3 < x) with
    | nil =>
      constructor
      · rw [hsplit, hdw]
        have hcnt : rest.countP (fun b => b ≤ 3) = 0 := by
          rw [List.countP_eq_zero]
          intro a ha
          have h3 : 3 < a := by
            have := List.dropWhile_eq_nil_iff.1 hdw a ha
            simpa using this
          simp only [decide_eq_true_eq]
          omega
        rw [List.countP_cons_of_pos _ _ (by simpa using hhead), hcnt]
        simp [sbSplit]
      · intro arg harg
        rw [hsplit, hdw] at harg
        simp only [sbSplit, List.mem_singleton] at harg
        exact ⟨m, rest.takeWhile (fun x => 3 < x), harg, hhead, htkmem⟩
    | cons d dtl =>
      have hd : decide (3 < d) = false :=
        dropWhile_head_false _ rest d dtl hdw
      have hd3 : d ≤ 3 := by simpa using hd
      have ihspec := ih (by rw [hdw]; exact List.cons_ne_nil d dtl)
        (by rw [hdw]; simpa using hd3)
      constructor
      · rw [hsplit]
        simp only [List.length_cons]
        rw [ihspec.1]
        conv_rhs => rw [← hrest]
        rw [List.countP_cons_of_pos _ _ (by simpa using hhead)]
        rw [List.countP_append, htkcount]
        omega
      · intro arg harg
        rw [hsplit] at harg
        rcases List.mem_cons.1 harg with h | h
        · exact ⟨m, rest.takeWhile (fun x => 3 < x), h, hhead, htkmem⟩
        · exact ihspec.2 arg h

/-- Claim C10: for TTYPE, ENVIRON, NEW-ENVIRON and MSSP
subnegotiations with a non-empty buffer whose first byte is in 0..3,
the emitted SUBNEGOTIATION event carries an argument list whose length
equals the number of buffer bytes in 0..3, and every decoded argument
starts with the marker byte (in 0..3) that introduced it followed by
the subsequent bytes greater than 3. -/
theorem C10_type_data_args (t : telnet_t)
    (hopt : t.sb_telopt = TELNET_TELOPT_TTYPE ∨
      t.sb_telopt = TELNET_TELOPT_ENVIRON ∨
      t.sb_telopt = TELNET_TELOPT_NEW_ENVIRON ∨
      t.sb_telopt = TELNET_TELOPT_MSSP)
    (hne : t.buffer ≠ []) (hh : t.buffer.headD 0 ≤ 3) :
    _subnegotiate t =
      [.evSubnegotiation t.sb_telopt t.buffer (sbSplit t.buffer)] ∧
    (sbSplit t.buffer).length = t.buffer.countP (fun b => b ≤ 3) ∧
    (∀ arg ∈ sbSplit t.buffer, ∃ m tl, arg = m :: tl ∧ m ≤ 3 ∧
      ∀ x ∈ tl, 3 < x) := by
  have hzmp : ¬t.sb_telopt = TELNET_TELOPT_ZMP := by
    rcases hopt with h | h | h | h <;>
      simp [h, TELNET_TELOPT_ZMP, TELNET_TELOPT_TTYPE, TELNET_TELOPT_ENVIRON,
        TELNET_TELOPT_NEW_ENVIRON, TELNET_TELOPT_MSSP]
  have hspec := sbSplit_spec t.buffer hne hh
  refine ⟨?_, hspec.1, hspec.2⟩
  unfold _subnegotiate
  rw [if_neg hzmp, if_pos hopt,
    if_neg (by simpa using hne : ¬t.buffer.length = 0),
    if_neg (by omega : ¬3 < t.buffer.headD 0)]

/-- Witness for `C10_type_data_args` at a TTYPE subnegotiation with
two arguments. -/
theorem C10_witness :
    (({ telnet_init none 0 [] with
        sb_telopt := TELNET_TELOPT_TTYPE, buffer := [0, 65, 66, 1, 67] } :
        telnet_t).sb_telopt = TELNET_TELOPT_TTYPE ∨
      ({ telnet_init none 0 [] with
        sb_telopt := TELNET_TELOPT_TTYPE, buffer := [0, 65, 66, 1, 67] } :
        telnet_t).sb_telopt = TELNET_TELOPT_ENVIRON ∨
      ({ telnet_init none 0 [] with
        sb_telopt := TELNET_TELOPT_TTYPE, buffer := [0, 65, 66, 1, 67] } :
        telnet_t).sb_telopt = TELNET_TELOPT_NEW_ENVIRON ∨
      ({ telnet_init none 0 [] with
        sb_telopt := TELNET_TELOPT_TTYPE, buffer := [0, 65, 66, 1, 67] } :
        telnet_t).sb_telopt = TELNET_TELOPT_MSSP) ∧
    (([0, 65, 66, 1, 67] : List Nat) ≠ []) ∧
    (([0, 65, 66, 1, 67] : List Nat).headD 0 ≤ 3) ∧
    (_subnegotiate { telnet_init none 0 [] with
        sb_telopt := TELNET_TELOPT_TTYPE, buffer := [0, 65, 66, 1, 67] } =
      [.evSubnegotiation TELNET_TELOPT_TTYPE [0, 65, 66, 1, 67]
        (sbSplit [0, 65, 66, 1, 67])] ∧
    (sbSplit ([0, 65, 66, 1, 67] : List Nat)).length =
      ([0, 65, 66, 1, 67] : List Nat).countP (fun b => b ≤ 3) ∧
    (∀ arg ∈ sbSplit ([0, 65, 66, 1, 67] : List Nat), ∃ m tl,
      arg = m :: tl ∧ m ≤ 3 ∧ ∀ x ∈ tl, 3 < x)) :=
  ⟨Or.inl rfl, by decide, by decide,
   C10_type_data_args _ (Or.inl rfl) (by decide) (by decide)⟩

/-! ## RFC1143 queue lemmas -/

/-- `find?` skips a block in which nothing matches. -/
theorem find_append_none (p : telnet_rfc1143_t → Bool)
    (l1 l2 : List telnet_rfc1143_t) (h : l1.find? p = none) :
    (l1 ++ l2).find? p = l2.find? p := by
  induction l1 with
  | nil => simp
  | cons e rest ih =>
    cases hp : p e with
    | true =>
      rw [List.find?_cons_of_pos _ hp] at h
      exact absurd h (by simp)
    | false =>
      rw [List.find?_cons_of_neg _ (by simp [hp])] at h
      rw [List.cons_append, List.find?_cons_of_neg _ (by simp [hp])]
      exact ih h

/-- Defining equation of `_set_upd` on a cons cell. -/
theorem set_upd_cons (e : telnet_rfc1143_t) (rest : List telnet_rfc1143_t)
    (topt us him : Nat) :
    _set_upd (e :: rest) topt us him =
      (if e.telopt = topt then
        some ({ e with us := us, him := him } :: rest)
      else
        match _set_upd rest topt us him with
        | some rest' => some (e :: rest')
        | none => none) := rfl

/-- The in-place update loop fails exactly when no entry matches. -/
theorem set_upd_none_iff (l : List telnet_rfc1143_t) (topt us him : Nat) :
    _set_upd l topt us him = none ↔
      l.find? (fun e => e.telopt == topt) = none := by
  induction l with
  | nil => simp [_set_upd]
  | cons e rest ih =>
    by_cases he : e.telopt = topt
    · rw [List.find?_cons_of_pos _ (by simp [he])]
      simp [set_upd_cons, he]
    · rw [List.find?_cons_of_neg _ (by simp [he])]
      rw [← ih, set_upd_cons, if_neg he]
      cases h : _set_upd rest topt us him <;> simp [h]

/-- The in-place update keeps the number of entries. -/
theorem set_upd_length (topt us him : Nat) :
    ∀ l l' : List telnet_rfc1143_t, _set_upd l topt us him = some l' →
      l'.length = l.length := by
  intro l
  induction l with
  | nil => intro l' h; simp [_set_upd] at h
  | cons e rest ih =>
    intro l' h
    unfold _set_upd at h
    by_cases he : e.telopt = topt
    · rw [if_pos he] at h
      simp only [Option.some.injEq] at h
      rw [← h]
      simp
    · rw [if_neg he] at h
      cases hr : _set_upd rest topt us him with
      | some rest' =>
        rw [hr] at h
        simp only [Option.some.injEq] at h
        rw [← h]
        simp [ih rest' hr]
      | none => rw [hr] at h; simp at h

/-- After a successful in-place update the first entry matching the
option carries exactly the written state. -/
theorem set_upd_find (topt us him : Nat) :
    ∀ l l' : List telnet_rfc1143_t, _set_upd l topt us him = some l' →
      l'.find? (fun e => e.telopt == topt) =
        some ⟨topt, us, him⟩ := by
  intro l
  induction l with
  | nil => intro l' h; simp [_set_upd] at h
  | cons e rest ih =>
    intro l' h
    unfold _set_upd at h
    by_cases he : e.telopt = topt
    · rw [if_pos he] at h
      simp only [Option.some.injEq] at h
      subst h
      rw [List.find?_cons_of_pos _ (by simp [he])]
      obtain ⟨et, eu, eh⟩ := e
      simp only at he
      simp [he]
    · rw [if_neg he] at h
      cases hr : _set_upd rest topt us him with
      | some rest' =>
        rw [hr] at h
        simp only [Option.some.injEq] at h
        subst h
        rw [List.find?_cons_of_neg _ (by simp [he])]
        exact ih rest' hr
      | none => rw [hr] at h; simp at h

/-- Every entry of the updated list is an original entry or carries the
updated option number. -/
theorem set_upd_mem (topt us him : Nat) :
    ∀ l l' : List telnet_rfc1143_t, _set_upd l topt us him = some l' →
      ∀ b ∈ l', b ∈ l ∨ b.telopt = topt := by
  intro l
  induction l with
  | nil => intro l' h; simp [_set_upd] at h
  | cons e rest ih =>
    intro l' h b hb
    unfold _set_upd at h
    by_cases he : e.telopt = topt
    · rw [if_pos he] at h
      simp only [Option.some.injEq] at h
      subst h
      rcases List.mem_cons.mp hb with rfl | hmem
      · right; exact he
      · left; exact List.mem_cons_of_mem e hmem
    · rw [if_neg he] at h
      cases hr : _set_upd rest topt us him with
      | some rest' =>
        rw [hr] at h
        simp only [Option.some.injEq] at h
        subst h
        rcases List.mem_cons.mp hb with rfl | hmem
        · left; exact List.mem_cons_self _ _
        · rcases ih rest' hr b hmem with h1 | h1
          · left; exact List.mem_cons_of_mem e h1
          · right; exact h1
      | none => rw [hr] at h; simp at h

/-- The in-place update preserves the duplicate-inertness relation. -/
theorem set_upd_pairwise (topt us him : Nat) :
    ∀ l l' : List telnet_rfc1143_t, l.Pairwise qDupR →
      _set_upd l topt us him = some l' → l'.Pairwise qDupR := by
  intro l
  induction l with
  | nil => intro l' _ h; simp [_set_upd] at h
  | cons e rest ih =>
    intro l' hp h
    obtain ⟨hhead, htail⟩ := List.pairwise_cons.mp hp
    unfold _set_upd at h
    by_cases he : e.telopt = topt
    · rw [if_pos he] at h
      simp only [Option.some.injEq] at h
      subst h
      refine List.pairwise_cons.mpr ⟨?_, htail⟩
      intro b hb heq
      exact hhead b hb heq
    · rw [if_neg he] at h
      cases hr : _set_upd rest topt us him with
      | some rest' =>
        rw [hr] at h
        simp only [Option.some.injEq] at h
        subst h
        refine List.pairwise_cons.mpr ⟨?_, ih rest' htail hr⟩
        intro b hb
        rcases set_upd_mem topt us him rest rest' hr b hb with h1 | h1
        · exact hhead b h1
        · intro heq
          exact absurd (heq.trans h1) he
      | none => rw [hr] at h; simp at h

/-- Taking the length of the left part of an append returns it. -/
theorem take_len_append (l1 l2 : List telnet_rfc1143_t) :
    (l1 ++ l2).take l1.length = l1 := by
  induction l1 with
  | nil => simp
  | cons a l ih => simp [ih]

/-- Zero-filled padding entries are inert for the duplicate relation. -/
theorem qDupR_pad (x : telnet_rfc1143_t) : qDupR x ⟨0, 0, 0⟩ :=
  fun _ => ⟨rfl, rfl⟩

/-- A freshly appended growth block satisfies the duplicate relation
internally: everything after its first entry is zero padding. -/
theorem block_pairwise (topt us him : Nat) :
    List.Pairwise qDupR
      ([⟨topt, us, him⟩, ⟨0, 0, 0⟩, ⟨0, 0, 0⟩, ⟨0, 0, 0⟩] :
        List telnet_rfc1143_t) := by
  refine List.pairwise_cons.mpr ⟨?_, ?_⟩
  · intro b hb
    simp only [List.mem_cons, List.not_mem_nil, or_false] at hb
    rcases hb with rfl | rfl | rfl <;> exact qDupR_pad _
  · refine List.pairwise_cons.mpr ⟨?_, ?_⟩
    · intro b hb
      simp only [List.mem_cons, List.not_mem_nil, or_false] at hb
      rcases hb with rfl | rfl <;> exact qDupR_pad _
    · refine List.pairwise_cons.mpr ⟨?_, ?_⟩
      · intro b hb
        simp only [List.mem_cons, List.not_mem_nil, or_false] at hb
        rcases hb with rfl
        exact qDupR_pad _
      · simp

/-- Numeric consequences of the queue-size invariant. -/
theorem qsize_facts (t : telnet_t) (h : QSizeInv t) :
    t.q_size ≤ t.q.length ∧ 4 ∣ t.q_size ∧ t.q_size ≤ 252 := by
  obtain ⟨hle, hdvd, hqs⟩ := h
  have hd : 4 ∣ t.q_size := by
    rw [hqs]
    exact (Nat.dvd_mod_iff (by norm_num)).mpr hdvd
  have hlt : t.q_size < 256 := by
    rw [hqs]
    exact Nat.mod_lt _ (by norm_num)
  exact ⟨hqs ▸ Nat.mod_le _ _, hd, by omega⟩

/-- `_set_rfc1143` when a live entry matches: in-place rewrite. -/
theorem set_inplace (t : telnet_t) (topt us him : Nat)
    (live' : List telnet_rfc1143_t)
    (hupd : _set_upd (t.q.take t.q_size) topt us him = some live') :
    _set_rfc1143 t topt us him =
      ({ t with q := live' ++ t.q.drop t.q_size }, []) := by
  unfold _set_rfc1143
  rw [hupd]

/-- `_set_rfc1143` when no live entry matches and the reallocation
succeeds: append a zero-filled block of four with the new entry first
and add 4 to the 8-bit size counter. -/
theorem set_grow (t : telnet_t) (topt us him : Nat)
    (hupd : _set_upd (t.q.take t.q_size) topt us him = none)
    (hok : (allocStep t).2 = true) :
    _set_rfc1143 t topt us him =
      ({ (allocStep t).1 with
          q := t.q.take t.q_size ++
            [⟨topt, us, him⟩, ⟨0, 0, 0⟩, ⟨0, 0, 0⟩, ⟨0, 0, 0⟩],
          q_size := (t.q_size + 4) % 256 }, []) := by
  have ha := allocStep_fields t
  unfold _set_rfc1143
  rw [hupd]
  simp [hok, ha.2.2.2.1, ha.2.2.2.2.1]

/-- `_set_rfc1143` when no live entry matches and the reallocation
fails: non-fatal ENOMEM, queue untouched. -/
theorem set_fail (t : telnet_t) (topt us him : Nat)
    (hupd : _set_upd (t.q.take t.q_size) topt us him = none)
    (hok : (allocStep t).2 = false) :
    _set_rfc1143 t topt us him =
      ((allocStep t).1, [.evWarning .enomem]) := by
  unfold _set_rfc1143
  rw [hupd]
  simp [hok, _error]

/-- `_set_rfc1143` preserves the queue-size invariant. -/
theorem set_QSizeInv (t : telnet_t) (topt us him : Nat) (h : QSizeInv t) :
    QSizeInv (_set_rfc1143 t topt us him).1 := by
  obtain ⟨hq_le, hd4, h252⟩ := qsize_facts t h
  obtain ⟨hle, hdvd, hqs⟩ := h
  have htk : (t.q.take t.q_size).length = t.q_size := by
    simp [List.length_take]
    omega
  cases hupd : _set_upd (t.q.take t.q_size) topt us him with
  | some live' =>
    rw [set_inplace t topt us him live' hupd]
    have hlen : live'.length = t.q_size := by
      rw [set_upd_length topt us him _ live' hupd]
      exact htk
    have hL : (live' ++ t.q.drop t.q_size).length = t.q.length := by
      simp [hlen, List.length_drop]
      omega
    refine ⟨?_, ?_, ?_⟩
    · show (live' ++ t.q.drop t.q_size).length ≤ 256
      rw [hL]; exact hle
    · show 4 ∣ (live' ++ t.q.drop t.q_size).length
      rw [hL]; exact hdvd
    · show t.q_size =
        (live' ++ t.q.drop t.q_size).length % 256
      rw [hL]; exact hqs
  | none =>
    by_cases hok : (allocStep t).2 = true
    · rw [set_grow t topt us him hupd hok]
      have hL : (t.q.take t.q_size ++
          ([⟨topt, us, him⟩, ⟨0, 0, 0⟩, ⟨0, 0, 0⟩, ⟨0, 0, 0⟩] :
            List telnet_rfc1143_t)).length = t.q_size + 4 := by
        simp [htk]
      refine ⟨?_, ?_, ?_⟩
      · show (t.q.take t.q_size ++
            ([⟨topt, us, him⟩, ⟨0, 0, 0⟩, ⟨0, 0, 0⟩, ⟨0, 0, 0⟩] :
              List telnet_rfc1143_t)).length ≤ 256
        rw [hL]; omega
      · show 4 ∣ (t.q.take t.q_size ++
            ([⟨topt, us, him⟩, ⟨0, 0, 0⟩, ⟨0, 0, 0⟩, ⟨0, 0, 0⟩] :
              List telnet_rfc1143_t)).length
        rw [hL]; omega
      · show (t.q_size + 4) % 256 = (t.q.take t.q_size ++
            ([⟨topt, us, him⟩, ⟨0, 0, 0⟩, ⟨0, 0, 0⟩, ⟨0, 0, 0⟩] :
              List telnet_rfc1143_t)).length % 256
        rw [hL]
    · have hok2 : (allocStep t).2 = false := by
        cases hx : (allocStep t).2
        · rfl
        · exact absurd hx hok
      rw [set_fail t topt us him hupd hok2]
      have ha := allocStep_fields t
      refine ⟨?_, ?_, ?_⟩
      · show (allocStep t).1.q.length ≤ 256
        rw [ha.2.2.2.1]; exact hle
      · show 4 ∣ (allocStep t).1.q.length
        rw [ha.2.2.2.1]; exact hdvd
      · show (allocStep t).1.q_size = (allocStep t).1.q.length % 256
        rw [ha.2.2.2.1, ha.2.2.2.2.1]; exact hqs

/-- `_set_rfc1143` preserves the duplicate-inertness invariant. -/
theorem set_QDupInv (t : telnet_t) (topt us him : Nat) (hs : QSizeInv t)
    (hd : QDupInv t) : QDupInv (_set_rfc1143 t topt us him).1 := by
  obtain ⟨hq_le, hd4, h252⟩ := qsize_facts t hs
  have htk : (t.q.take t.q_size).length = t.q_size := by
    simp [List.length_take]
    omega
  cases hupd : _set_upd (t.q.take t.q_size) topt us him with
  | some live' =>
    rw [set_inplace t topt us him live' hupd]
    have hlen : live'.length = t.q_size := by
      rw [set_upd_length topt us him _ live' hupd]
      exact htk
    show ((live' ++ t.q.drop t.q_size).take t.q_size).Pairwise qDupR
    rw [← hlen, take_len_append]
    exact set_upd_pairwise topt us him _ live' hd hupd
  | none =>
    by_cases hok : (allocStep t).2 = true
    · rw [set_grow t topt us him hupd hok]
      show ((t.q.take t.q_size ++
          ([⟨topt, us, him⟩, ⟨0, 0, 0⟩, ⟨0, 0, 0⟩, ⟨0, 0, 0⟩] :
            List telnet_rfc1143_t)).take ((t.q_size + 4) % 256)).Pairwise qDupR
      have hfull : (t.q.take t.q_size ++
          ([⟨topt, us, him⟩, ⟨0, 0, 0⟩, ⟨0, 0, 0⟩, ⟨0, 0, 0⟩] :
            List telnet_rfc1143_t)).Pairwise qDupR := by
        rw [List.pairwise_append]
        refine ⟨hd, block_pairwise topt us him, ?_⟩
        intro a ha b hb
        have hnone : (t.q.take t.q_size).find?
            (fun e => e.telopt == topt) = none :=
          (set_upd_none_iff _ topt us him).mp hupd
        have hne : a.telopt ≠ topt := by
          have := List.find?_eq_none.mp hnone a ha
          simpa using this
        simp only [List.mem_cons, List.not_mem_nil, or_false] at hb
        rcases hb with rfl | rfl | rfl | rfl
        · intro heq; exact absurd heq hne
        · exact qDupR_pad a
        · exact qDupR_pad a
        · exact qDupR_pad a
      exact List.Pairwise.sublist (List.take_sublist _ _) hfull
    · have hok2 : (allocStep t).2 = false := by
        cases hx : (allocStep t).2
        · rfl
        · exact absurd hx hok
      rw [set_fail t topt us him hupd hok2]
      have ha := allocStep_fields t
      show ((allocStep t).1.q.take (allocStep t).1.q_size).Pairwise qDupR
      rw [ha.2.2.2.1, ha.2.2.2.2.1]
      exact hd

/-- After a successful `_set_rfc1143` with fewer than 63 prior growth
blocks, looking the option up again returns exactly the written
state, and no event is emitted. -/
theorem get_after_set (t : telnet_t) (topt us him : Nat)
    (hs : QSizeInv t) (hq : t.q_size ≠ 252) (hal : t.allocOk = []) :
    (_set_rfc1143 t topt us him).2 = [] ∧
    _get_rfc1143 (_set_rfc1143 t topt us him).1 topt =
      ⟨topt, us, him⟩ := by
  obtain ⟨hq_le, hd4, h252⟩ := qsize_facts t hs
  have htk : (t.q.take t.q_size).length = t.q_size := by
    simp [List.length_take]
    omega
  cases hupd : _set_upd (t.q.take t.q_size) topt us him with
  | some live' =>
    rw [set_inplace t topt us him live' hupd]
    have hlen : live'.length = t.q_size := by
      rw [set_upd_length topt us him _ live' hupd]
      exact htk
    refine ⟨rfl, ?_⟩
    show (match ((live' ++ t.q.drop t.q_size).take t.q_size).find?
        (fun e => e.telopt == topt) with
      | some e => e
      | none => (⟨topt, 0, 0⟩ : telnet_rfc1143_t)) = ⟨topt, us, him⟩
    rw [← hlen, take_len_append, set_upd_find topt us him _ live' hupd]
  | none =>
    have hok : (allocStep t).2 = true := by simp [allocStep, hal]
    have ha1 : (allocStep t).1 = t := by simp [allocStep, hal]
    rw [set_grow t topt us him hupd hok, ha1]
    refine ⟨rfl, ?_⟩
    have hmod : (t.q_size + 4) % 256 = t.q_size + 4 :=
      Nat.mod_eq_of_lt (by omega)
    have hlenfull : (t.q.take t.q_size ++
        ([⟨topt, us, him⟩, ⟨0, 0, 0⟩, ⟨0, 0, 0⟩, ⟨0, 0, 0⟩] :
          List telnet_rfc1143_t)).length = t.q_size + 4 := by
      simp [htk]
    show (match ((t.q.take t.q_size ++
        ([⟨topt, us, him⟩, ⟨0, 0, 0⟩, ⟨0, 0, 0⟩, ⟨0, 0, 0⟩] :
          List telnet_rfc1143_t)).take ((t.q_size + 4) % 256)).find?
        (fun e => e.telopt == topt) with
      | some e => e
      | none => (⟨topt, 0, 0⟩ : telnet_rfc1143_t)) = ⟨topt, us, him⟩
    rw [hmod, ← hlenfull, List.take_length,
      find_append_none _ _ _ ((set_upd_none_iff _ topt us him).mp hupd),
      List.find?_cons_of_pos _ (by simp)]

set_option maxHeartbeats 2000000 in
/-- The tracker coming out of `_negotiate` is the old tracker or the
result of a single `_set_rfc1143` on it. -/
theorem negotiate_q_shape (t : telnet_t) (b : Nat) :
    (_negotiate t b).1 = t ∨
    ∃ o u hm, (_negotiate t b).1 = (_set_rfc1143 t o u hm).1 := by
  unfold _negotiate
  split
  · exact Or.inl rfl
  · split <;>
      rcases hh : (_get_rfc1143 t b).him with _ | _ | _ | _ | _ | _ | n <;>
      rcases hu : (_get_rfc1143 t b).us with _ | _ | _ | _ | _ | _ | m <;>
      simp only [hh, hu] <;>
      (try split) <;>
      (try simp [hh, hu]) <;>
      first
        | exact Or.inl rfl
        | exact Or.inr ⟨_, _, _, rfl⟩

set_option maxHeartbeats 2000000 in
/-- The tracker coming out of `telnet_negotiate` is the old tracker or
the result of a single `_set_rfc1143` on it. -/
theorem telnet_negotiate_q_shape (t : telnet_t) (cmd b : Nat) :
    (telnet_negotiate t cmd b).1 = t ∨
    ∃ o u hm, (telnet_negotiate t cmd b).1 = (_set_rfc1143 t o u hm).1 := by
  unfold telnet_negotiate
  split
  · exact Or.inl rfl
  · by_cases h1 : cmd = TELNET_WILL
    · rcases hu : (_get_rfc1143 t b).us with _ | _ | _ | _ | _ | _ | m <;>
        simp only [h1, hu] <;>
        (try simp [hu, TELNET_WILL, TELNET_WONT, TELNET_DO, TELNET_DONT]) <;>
        first
          | exact Or.inl rfl
          | exact Or.inr ⟨_, _, _, rfl⟩
    · by_cases h2 : cmd = TELNET_WONT
      · rcases hu : (_get_rfc1143 t b).us with _ | _ | _ | _ | _ | _ | m <;>
          simp only [h1, h2, hu] <;>
          (try simp [hu, h1, TELNET_WILL, TELNET_WONT, TELNET_DO,
            TELNET_DONT]) <;>
          first
            | exact Or.inl rfl
            | exact Or.inr ⟨_, _, _, rfl⟩
      · by_cases h3 : cmd = TELNET_DO
        · rcases hh : (_get_rfc1143 t b).him with _ | _ | _ | _ | _ | _ | n <;>
            simp only [h1, h2, h3, hh] <;>
            (try simp [hh, h1, h2, TELNET_WILL, TELNET_WONT, TELNET_DO,
              TELNET_DONT]) <;>
            first
              | exact Or.inl rfl
              | exact Or.inr ⟨_, _, _, rfl⟩
        · by_cases h4 : cmd = TELNET_DONT
          · rcases hh : (_get_rfc1143 t b).him with
                _ | _ | _ | _ | _ | _ | n <;>
              simp only [h1, h2, h3, h4, hh] <;>
              (try simp [hh, h1, h2, h3, TELNET_WILL, TELNET_WONT, TELNET_DO,
                TELNET_DONT]) <;>
              first
                | exact Or.inl rfl
                | exact Or.inr ⟨_, _, _, rfl⟩
          · simp [h1, h2, h3, h4]

/-- `_buffer_byte` never touches the negotiation queue. -/
theorem bb_q_fields (t : telnet_t) (b : Nat) :
    (_buffer_byte t b).1.q = t.q ∧ (_buffer_byte t b).1.q_size = t.q_size := by
  have ha := allocStep_fields t
  rcases bb_cases t b with ⟨_, he⟩ | ⟨_, _, he⟩ | ⟨i, _, _, _, _, he⟩ |
    ⟨i, _, _, _, _, he⟩ <;> rw [he] <;> simp_all

/-- One decoder step preserves the queue invariants. -/
theorem stepB_QInv (t : telnet_t) (b : Nat) (h : QSizeInv t ∧ QDupInv t) :
    QSizeInv (stepB t b).1 ∧ QDupInv (stepB t b).1 := by
  have hnegQ : QSizeInv { (_negotiate t b).1 with state := telnet_state_t.data } ∧
      QDupInv { (_negotiate t b).1 with state := telnet_state_t.data } := by
    rcases negotiate_q_shape t b with he | ⟨o, u, hm, he⟩
    · rw [he]; exact ⟨h.1, h.2⟩
    · rw [he]
      exact ⟨set_QSizeInv t o u hm h.1, set_QDupInv t o u hm h.1 h.2⟩
  have hbbQ : ∀ c, QSizeInv (_buffer_byte t c).1 ∧
      QDupInv (_buffer_byte t c).1 := by
    intro c
    have hf := bb_q_fields t c
    constructor
    · unfold QSizeInv
      rw [hf.1, hf.2]
      exact h.1
    · unfold QDupInv
      rw [hf.1, hf.2]
      exact h.2
  unfold stepB
  split
  · split
    · exact ⟨h.1, h.2⟩
    · exact h
  · unfold iacStep
    (repeat' split) <;> exact ⟨h.1, h.2⟩
  · exact hnegQ
  · exact hnegQ
  · exact hnegQ
  · exact hnegQ
  · exact ⟨h.1, h.2⟩
  · by_cases hbi : b = TELNET_IAC
    · simp only [hbi, if_pos rfl]
      exact ⟨h.1, h.2⟩
    · have hb := hbbQ b
      by_cases hok : (_buffer_byte t b).2.1 = .eok <;>
        simp only [hbi, if_neg hbi, hok, if_pos, if_neg, if_true,
          if_false] <;>
        exact ⟨hb.1, hb.2⟩
  · by_cases hse : b = TELNET_SE
    · subst hse
      rw [if_pos rfl]
      exact ⟨h.1, h.2⟩
    · by_cases hbi : b = TELNET_IAC
      · subst hbi
        rw [if_neg hse, if_pos rfl]
        have hb := hbbQ TELNET_IAC
        refine ⟨?_, ?_⟩
        · show QSizeInv (if (_buffer_byte t TELNET_IAC).2.1 = .eok then
              ({ (_buffer_byte t TELNET_IAC).1 with state := .sbData },
                (_buffer_byte t TELNET_IAC).2.2)
            else
              ({ (_buffer_byte t TELNET_IAC).1 with state := .data },
                (_buffer_byte t TELNET_IAC).2.2)).1
          split
          · exact hb.1
          · exact hb.1
        · show QDupInv (if (_buffer_byte t TELNET_IAC).2.1 = .eok then
              ({ (_buffer_byte t TELNET_IAC).1 with state := .sbData },
                (_buffer_byte t TELNET_IAC).2.2)
            else
              ({ (_buffer_byte t TELNET_IAC).1 with state := .data },
                (_buffer_byte t TELNET_IAC).2.2)).1
          split
          · exact hb.2
          · exact hb.2
      · rw [if_neg hse, if_neg hbi]
        show QSizeInv (iacStep { t with state := telnet_state_t.iac } b).1 ∧
          QDupInv (iacStep { t with state := telnet_state_t.iac } b).1
        have hi := iacStep_fields { t with state := telnet_state_t.iac } b
        constructor
        · unfold QSizeInv
          rw [hi.2.2.1, hi.2.2.2.1]
          exact h.1
        · unfold QDupInv
          rw [hi.2.2.1, hi.2.2.2.1]
          exact h.2

/-- A whole decoder run preserves the queue invariants. -/
theorem stepRun_QInv (bs : List Nat) : ∀ t : telnet_t,
    QSizeInv t ∧ QDupInv t →
      QSizeInv (stepRun t bs).1 ∧ QDupInv (stepRun t bs).1 := by
  induction bs with
  | nil => intro t h; exact h
  | cons b rest ih =>
    intro t h
    simp only [stepRun]
    exact ih _ (stepB_QInv t b h)

/-- Every reachable tracker satisfies the queue invariants. -/
theorem reachable_QInv (t : telnet_t) (h : Reachable t) :
    QSizeInv t ∧ QDupInv t := by
  induction h with
  | init telopts flags heap =>
    exact ⟨⟨by simp [telnet_init], by simp [telnet_init],
      by simp [telnet_init]⟩, by simp [QDupInv, telnet_init]⟩
  | recv t bs _ ih =>
    rw [(recv_stepRun t bs).1]
    exact stepRun_QInv bs t ih
  | negotiate t cmd telopt _ ih =>
    rcases telnet_negotiate_q_shape t cmd telopt with he | ⟨o, u, hm, he⟩
    · rw [he]; exact ih
    · rw [he]
      exact ⟨set_QSizeInv t o u hm ih.1, set_QDupInv t o u hm ih.1 ih.2⟩

/-- `_negotiate` in the WILL state on an option in the empty
negotiation state: accept (record YES, send DO, surface WILL) when the
support table backs `him`, refuse with DONT otherwise. -/
theorem negotiate_will_fresh (t : telnet_t) (opt : Nat)
    (hstate : t.state = .will)
    (hproxy : t.flags &&& TELNET_FLAG_PROXY = 0)
    (hfresh : _get_rfc1143 t opt = ⟨opt, 0, 0⟩) :
    _negotiate t opt =
      if _check_telopt t opt false then
        ((_set_rfc1143 t opt 0 Q_YES).1,
         (_set_rfc1143 t opt 0 Q_YES).2 ++
           [.evSend [TELNET_IAC, TELNET_DO, opt], .evWill opt])
      else (t, [.evSend [TELNET_IAC, TELNET_DONT, opt]]) := by
  unfold _negotiate
  rw [if_neg (by simp [hproxy])]
  by_cases hc : _check_telopt t opt false
  · rw [if_pos hc]
    simp [hstate, hfresh, hc, _send_negotiate, _send]
  · rw [if_neg hc]
    simp [hstate, hfresh, hc, _send_negotiate, _send]

/-- `_negotiate` in the DO state on an option in the empty negotiation
state: accept (record YES, send WILL, surface DO) when the support
table backs `us`, refuse with WONT otherwise. -/
theorem negotiate_do_fresh (t : telnet_t) (opt : Nat)
    (hstate : t.state = .tdo)
    (hproxy : t.flags &&& TELNET_FLAG_PROXY = 0)
    (hfresh : _get_rfc1143 t opt = ⟨opt, 0, 0⟩) :
    _negotiate t opt =
      if _check_telopt t opt true then
        ((_set_rfc1143 t opt Q_YES 0).1,
         (_set_rfc1143 t opt Q_YES 0).2 ++
           [.evSend [TELNET_IAC, TELNET_WILL, opt], .evDo opt])
      else (t, [.evSend [TELNET_IAC, TELNET_WONT, opt]]) := by
  unfold _negotiate
  rw [if_neg (by simp [hproxy])]
  by_cases hc : _check_telopt t opt true
  · rw [if_pos hc]
    simp [hstate, hfresh, hc, _send_negotiate, _send]
  · rw [if_neg hc]
    simp [hstate, hfresh, hc, _send_negotiate, _send]

/-- Decoding IAC WILL opt from the DATA state routes the option byte
through `_negotiate` in the WILL state and returns to DATA. -/
theorem recv_will_shape (t : telnet_t) (opt : Nat) (hstate : t.state = .data) :
    telnet_recv t [TELNET_IAC, TELNET_WILL, opt] =
      ({ (_negotiate { t with state := .will } opt).1 with state := .data },
       (_negotiate { t with state := .will } opt).2) := by
  obtain ⟨tel, fl, q, qs, buf, bufsz, st, sbt, al⟩ := t
  simp only at hstate
  subst hstate
  simp [telnet_recv, _process, processLoop, stepB, iacStep, TELNET_IAC,
    TELNET_SB, TELNET_WILL, TELNET_WONT, TELNET_DO, TELNET_DONT]

/-- Decoding IAC DO opt from the DATA state routes the option byte
through `_negotiate` in the DO state and returns to DATA. -/
theorem recv_do_shape (t : telnet_t) (opt : Nat) (hstate : t.state = .data) :
    telnet_recv t [TELNET_IAC, TELNET_DO, opt] =
      ({ (_negotiate { t with state := .tdo } opt).1 with state := .data },
       (_negotiate { t with state := .tdo } opt).2) := by
  obtain ⟨tel, fl, q, qs, buf, bufsz, st, sbt, al⟩ := t
  simp only at hstate
  subst hstate
  simp [telnet_recv, _process, processLoop, stepB, iacStep, TELNET_IAC,
    TELNET_SB, TELNET_WILL, TELNET_WONT, TELNET_DO, TELNET_DONT]

set_option maxHeartbeats 1000000 in
/-- Claim C4 (amended): in non-proxy mode, with a working allocator
and fewer than 63 prior queue growths, for an option whose negotiation
state reads back as (NO, NO): receiving WILL opt accepts (him becomes
YES, IAC DO opt is sent, a WILL event is emitted) iff the support
table's first entry for opt has him = DO, and otherwise refuses with
IAC DONT opt and no state change; receiving DO opt accepts (us becomes
YES, IAC WILL opt is sent, a DO event is emitted) iff that entry's us
column is WILL, and otherwise refuses with IAC WONT opt, no DO event
and no state change — including when the table has no entry for opt. -/
theorem C4_fresh_negotiation (t : telnet_t) (opt : Nat)
    (table : List telnet_telopt_t)
    (hstate : t.state = .data)
    (hproxy : t.flags &&& TELNET_FLAG_PROXY = 0)
    (htab : t.telopts = some table)
    (hfresh : _get_rfc1143 t opt = ⟨opt, 0, 0⟩)
    (halloc : t.allocOk = [])
    (hqinv : QSizeInv t)
    (hq252 : t.q_size ≠ 252) :
    (_check_telopt t opt false =
      (match table.find? (fun e => e.telopt == opt) with
       | some e => e.him == TELNET_DO
       | none => false)) ∧
    (_check_telopt t opt true =
      (match table.find? (fun e => e.telopt == opt) with
       | some e => e.us == TELNET_WILL
       | none => false)) ∧
    (_check_telopt t opt false = true →
      (telnet_recv t [TELNET_IAC, TELNET_WILL, opt]).2 =
        [.evSend [TELNET_IAC, TELNET_DO, opt], .evWill opt] ∧
      _get_rfc1143 (telnet_recv t [TELNET_IAC, TELNET_WILL, opt]).1 opt =
        ⟨opt, 0, Q_YES⟩ ∧
      (telnet_recv t [TELNET_IAC, TELNET_WILL, opt]).1.state = .data) ∧
    (_check_telopt t opt false = false →
      telnet_recv t [TELNET_IAC, TELNET_WILL, opt] =
        (t, [.evSend [TELNET_IAC, TELNET_DONT, opt]])) ∧
    (_check_telopt t opt true = true →
      (telnet_recv t [TELNET_IAC, TELNET_DO, opt]).2 =
        [.evSend [TELNET_IAC, TELNET_WILL, opt], .evDo opt] ∧
      _get_rfc1143 (telnet_recv t [TELNET_IAC, TELNET_DO, opt]).1 opt =
        ⟨opt, Q_YES, 0⟩ ∧
      (telnet_recv t [TELNET_IAC, TELNET_DO, opt]).1.state = .data) ∧
    (_check_telopt t opt true = false →
      telnet_recv t [TELNET_IAC, TELNET_DO, opt] =
        (t, [.evSend [TELNET_IAC, TELNET_WONT, opt]])) := by
  have hW := negotiate_will_fresh { t with state := .will } opt rfl
    hproxy hfresh
  have hD := negotiate_do_fresh { t with state := .tdo } opt rfl
    hproxy hfresh
  have hsetW := get_after_set { t with state := .will } opt 0 Q_YES
    hqinv hq252 halloc
  have hsetD := get_after_set { t with state := .tdo } opt Q_YES 0
    hqinv hq252 halloc
  refine ⟨?_, ?_, ?_, ?_, ?_, ?_⟩
  · unfold _check_telopt
    rw [htab]
    cases hf : table.find? (fun e => e.telopt == opt) <;> simp [hf]
  · unfold _check_telopt
    rw [htab]
    cases hf : table.find? (fun e => e.telopt == opt) <;> simp [hf]
  · intro hc
    have hc' : _check_telopt { t with state := telnet_state_t.will }
        opt false = true := hc
    rw [recv_will_shape t opt hstate, hW, if_pos hc']
    refine ⟨?_, hsetW.2, rfl⟩
    show (_set_rfc1143 { t with state := telnet_state_t.will }
          opt 0 Q_YES).2 ++
        [telnet_event_t.evSend [TELNET_IAC, TELNET_DO, opt],
         telnet_event_t.evWill opt] =
      [telnet_event_t.evSend [TELNET_IAC, TELNET_DO, opt],
       telnet_event_t.evWill opt]
    rw [hsetW.1]
    rfl
  · intro hc
    have hc' : ¬(_check_telopt { t with state := telnet_state_t.will }
        opt false = true) := by
      intro hx
      have hx' : _check_telopt t opt false = true := hx
      simp [hc] at hx'
    rw [recv_will_shape t opt hstate, hW, if_neg hc']
    have h1 : ({ { t with state := telnet_state_t.will } with
        state := telnet_state_t.data } : telnet_t) = t :=
      set_state_self t .data hstate
    exact Prod.ext_iff.mpr ⟨h1, rfl⟩
  · intro hc
    have hc' : _check_telopt { t with state := telnet_state_t.tdo }
        opt true = true := hc
    rw [recv_do_shape t opt hstate, hD, if_pos hc']
    refine ⟨?_, hsetD.2, rfl⟩
    show (_set_rfc1143 { t with state := telnet_state_t.tdo }
          opt Q_YES 0).2 ++
        [telnet_event_t.evSend [TELNET_IAC, TELNET_WILL, opt],
         telnet_event_t.evDo opt] =
      [telnet_event_t.evSend [TELNET_IAC, TELNET_WILL, opt],
       telnet_event_t.evDo opt]
    rw [hsetD.1]
    rfl
  · intro hc
    have hc' : ¬(_check_telopt { t with state := telnet_state_t.tdo }
        opt true = true) := by
      intro hx
      have hx' : _check_telopt t opt true = true := hx
      simp [hc] at hx'
    rw [recv_do_shape t opt hstate, hD, if_neg hc']
    have h1 : ({ { t with state := telnet_state_t.tdo } with
        state := telnet_state_t.data } : telnet_t) = t :=
      set_state_self t .data hstate
    exact Prod.ext_iff.mpr ⟨h1, rfl⟩

set_option maxRecDepth 100000 in
/-- Counterexample to claim C4 as frozen: after sixty-three
caller-initiated DO negotiations the 8-bit queue-size counter stands
at 252; the sixty-fourth option, still reading back as (NO, NO) and
backed by the support table, is accepted on WILL (DO is sent and a
WILL event emitted) yet its recorded `him` state is NOT Q_YES
afterwards — the counter wrapped to 0 and the entry became invisible,
so the "him becomes YES" part of the claim fails. -/
theorem C4_counterexample :
    (let t63 := negotiateMany
        (telnet_init (some [(⟨63, 251, 253⟩ : telnet_telopt_t)]) 0 [])
        ((List.range 63).map (fun i => (TELNET_DO, i)))
     let r := telnet_recv t63 [TELNET_IAC, TELNET_WILL, 63]
     _get_rfc1143 t63 63 = ⟨63, 0, 0⟩ ∧
     r.2 = [.evSend [255, 253, 63], .evWill 63] ∧
     (_get_rfc1143 r.1 63).him = 0) := by
  decide

/-- Witness for `C4_fresh_negotiation` on a fresh tracker whose table
supports TTYPE in both directions. -/
theorem C4_witness :
    (telnet_init (some [(⟨24, 251, 253⟩ : telnet_telopt_t)]) 0
        []).state = .data ∧
    (telnet_init (some [(⟨24, 251, 253⟩ : telnet_telopt_t)]) 0
        []).flags &&& TELNET_FLAG_PROXY = 0 ∧
    (telnet_init (some [(⟨24, 251, 253⟩ : telnet_telopt_t)]) 0
        []).telopts = some [(⟨24, 251, 253⟩ : telnet_telopt_t)] ∧
    _get_rfc1143 (telnet_init (some [(⟨24, 251, 253⟩ : telnet_telopt_t)])
        0 []) 24 = ⟨24, 0, 0⟩ ∧
    (telnet_init (some [(⟨24, 251, 253⟩ : telnet_telopt_t)]) 0
        []).allocOk = [] ∧
    QSizeInv (telnet_init (some [(⟨24, 251, 253⟩ : telnet_telopt_t)])
      0 []) ∧
    (telnet_init (some [(⟨24, 251, 253⟩ : telnet_telopt_t)]) 0
        []).q_size ≠ 252 ∧
    ((_check_telopt (telnet_init (some [(⟨24, 251, 253⟩ :
          telnet_telopt_t)]) 0 []) 24 false =
      (match ([(⟨24, 251, 253⟩ : telnet_telopt_t)]).find?
          (fun e => e.telopt == 24) with
       | some e => e.him == TELNET_DO
       | none => false)) ∧
    (_check_telopt (telnet_init (some [(⟨24, 251, 253⟩ :
          telnet_telopt_t)]) 0 []) 24 true =
      (match ([(⟨24, 251, 253⟩ : telnet_telopt_t)]).find?
          (fun e => e.telopt == 24) with
       | some e => e.us == TELNET_WILL
       | none => false)) ∧
    (_check_telopt (telnet_init (some [(⟨24, 251, 253⟩ :
          telnet_telopt_t)]) 0 []) 24 false = true →
      (telnet_recv (telnet_init (some [(⟨24, 251, 253⟩ :
          telnet_telopt_t)]) 0 []) [TELNET_IAC, TELNET_WILL, 24]).2 =
        [.evSend [TELNET_IAC, TELNET_DO, 24], .evWill 24] ∧
      _get_rfc1143 (telnet_recv (telnet_init (some [(⟨24, 251, 253⟩ :
          telnet_telopt_t)]) 0 []) [TELNET_IAC, TELNET_WILL, 24]).1 24 =
        ⟨24, 0, Q_YES⟩ ∧
      (telnet_recv (telnet_init (some [(⟨24, 251, 253⟩ :
          telnet_telopt_t)]) 0 [])
        [TELNET_IAC, TELNET_WILL, 24]).1.state = .data) ∧
    (_check_telopt (telnet_init (some [(⟨24, 251, 253⟩ :
          telnet_telopt_t)]) 0 []) 24 false = false →
      telnet_recv (telnet_init (some [(⟨24, 251, 253⟩ :
          telnet_telopt_t)]) 0 []) [TELNET_IAC, TELNET_WILL, 24] =
        (telnet_init (some [(⟨24, 251, 253⟩ : telnet_telopt_t)]) 0 [],
         [.evSend [TELNET_IAC, TELNET_DONT, 24]])) ∧
    (_check_telopt (telnet_init (some [(⟨24, 251, 253⟩ :
          telnet_telopt_t)]) 0 []) 24 true = true →
      (telnet_recv (telnet_init (some [(⟨24, 251, 253⟩ :
          telnet_telopt_t)]) 0 []) [TELNET_IAC, TELNET_DO, 24]).2 =
        [.evSend [TELNET_IAC, TELNET_WILL, 24], .evDo 24] ∧
      _get_rfc1143 (telnet_recv (telnet_init (some [(⟨24, 251, 253⟩ :
          telnet_telopt_t)]) 0 []) [TELNET_IAC, TELNET_DO, 24]).1 24 =
        ⟨24, Q_YES, 0⟩ ∧
      (telnet_recv (telnet_init (some [(⟨24, 251, 253⟩ :
          telnet_telopt_t)]) 0 [])
        [TELNET_IAC, TELNET_DO, 24]).1.state = .data) ∧
    (_check_telopt (telnet_init (some [(⟨24, 251, 253⟩ :
          telnet_telopt_t)]) 0 []) 24 true = false →
      telnet_recv (telnet_init (some [(⟨24, 251, 253⟩ :
          telnet_telopt_t)]) 0 []) [TELNET_IAC, TELNET_DO, 24] =
        (telnet_init (some [(⟨24, 251, 253⟩ : telnet_telopt_t)]) 0 [],
         [.evSend [TELNET_IAC, TELNET_WONT, 24]]))) :=
  ⟨rfl, by decide, rfl, by decide, rfl,
   ⟨by decide, by decide, by decide⟩, by decide,
   C4_fresh_negotiation
     (telnet_init (some [(⟨24, 251, 253⟩ : telnet_telopt_t)]) 0 [])
     24 [(⟨24, 251, 253⟩ : telnet_telopt_t)] rfl (by decide) rfl
     (by decide) rfl ⟨by decide, by decide, by decide⟩ (by decide)⟩

/-- Claim C9 (amended): on every reachable tracker the negotiation
queue is allocated in blocks of four with the 8-bit size counter equal
to the allocation length mod 256 (so the counter wraps instead of
growing monotonically); an option can occupy several live entries, but
every live entry after the first one for its option carries the inert
(NO, NO) state; and an option with no live entry reads back as
(NO, NO). -/
theorem C9_queue_invariants (t : telnet_t) (h : Reachable t) :
    QSizeInv t ∧ QDupInv t ∧
    ∀ topt, (t.q.take t.q_size).find? (fun e => e.telopt == topt) = none →
      _get_rfc1143 t topt = ⟨topt, 0, 0⟩ := by
  refine ⟨(reachable_QInv t h).1, (reachable_QInv t h).2, ?_⟩
  intro topt hf
  unfold _get_rfc1143
  rw [hf]

set_option maxRecDepth 100000 in
/-- Counterexample to claim C9 as frozen: one fresh DO negotiation
leaves three live queue entries all numbered 0 (the zero-filled
padding of the growth block), so an option number can appear in more
than one entry; and across the sixty-fourth growth the 8-bit queue
size counter drops from 252 to 0, after which the next growth
reallocates down to 4 entries, deleting the previous 256. -/
theorem C9_counterexample :
    ((let t1 := (telnet_negotiate (telnet_init (some []) 0 [])
        TELNET_DO 5).1
      ((t1.q.take t1.q_size).filter (fun e => e.telopt == 0)).length = 3) ∧
     (let t63 := negotiateMany (telnet_init (some []) 0 [])
         ((List.range 63).map (fun i => (TELNET_DO, i)))
      let t64 := (telnet_negotiate t63 TELNET_DO 63).1
      let t65 := (telnet_negotiate t64 TELNET_DO 64).1
      t63.q_size = 252 ∧ t63.q.length = 252 ∧
      t64.q_size = 0 ∧ t64.q.length = 256 ∧
      t65.q_size = 4 ∧ t65.q.length = 4)) := by
  decide

/-- Witness for `C9_queue_invariants` at a freshly initialized
tracker. -/
theorem C9_witness :
    Reachable (telnet_init none 0 []) ∧
    (QSizeInv (telnet_init none 0 []) ∧ QDupInv (telnet_init none 0 []) ∧
     ∀ topt, ((telnet_init none 0 []).q.take
         (telnet_init none 0 []).q_size).find?
         (fun e => e.telopt == topt) = none →
       _get_rfc1143 (telnet_init none 0 []) topt = ⟨topt, 0, 0⟩) :=
  ⟨Reachable.init none 0 [],
   C9_queue_invariants _ (Reachable.init none 0 [])⟩

end Libtelnet
